import Mathlib

/-!
# Session registry of the mux package (`common/mux/session.go`)

A shallow embedding of `SessionManager` and `Session`.

* `*Session` values are indices into `World.heap`; the registry's map stores such
  pointers, exactly as `map[uint16]*Session` does.
* `uint16` values are natural numbers, every increment is reduced `% 65536`.
* A Go map is `Option (AList ..)`: `none` is the nil map (`m.sessions = nil`),
  `some` an allocated one.  Go leaves the iteration order of a map unspecified; the
  model walks the entries in the order of the association list and the theorems only
  speak about membership.
* Channels are indices into `World.chans`, which records for every channel made so far
  whether it has been closed.
* Run-time panics are values of `Fault`; an operation that can panic returns `Except`.
* Every method body runs under the registry's lock, so one call is one atomic step.
  The goroutine started by `NewSessionManager` is not part of the sequential model.
-/

namespace Mux

/-- Run-time panics of the Go code. -/
inductive Fault where
  | nilDeref
  | nilMapWrite
  | closeNilChan
  | closeClosedChan
  | sendClosedChan
deriving DecidableEq, Repr

/-- Observable effects on the outside world, in the order in which they happen. -/
inductive Event where
  | closeStream (r : Nat) (failed : Bool)
  | closeChan (c : Nat)
deriving DecidableEq, Repr

/-- The struct `Session`.  `input` and `output` are interface values (`none` is the nil
interface, `some r` the stream `r`), `parent` is a `*SessionManager` (`none` is nil),
`tokenChan` a channel (`none` is the nil channel). -/
structure Session where
  input : Option Nat
  output : Option Nat
  parent : Option Nat
  ID : Nat
  transferType : Nat
  tokenChan : Option Nat
deriving DecidableEq, Repr

/-- A value of type `map[uint16]*Session`. -/
abbrev SessionMap := Option (AList (fun _ : Nat => Nat))

/-- The struct `SessionManager` (the embedded `sync.RWMutex` is left out). -/
structure SessionManager where
  sessions : SessionMap
  count : Nat
  closed : Bool
  requestChan : Option Nat
deriving DecidableEq

/-- The part of the program state the registry code reads and writes: the registry
itself (living at address `self`), the `Session` objects, the channels and the trace of
effects. -/
structure World where
  self : Nat
  mgr : SessionManager
  heap : List Session
  chans : List Bool
  trace : List Event
deriving DecidableEq

/-! ## Go built-ins -/

/-- Go `len(m)`: a nil map has length 0. -/
def mapLen : SessionMap → Nat
  | none => 0
  | some m => m.entries.length

/-- Go `v, ok := m[k]`: reading a nil map finds nothing. -/
def mapGet (sm : SessionMap) (k : Nat) : Option Nat × Bool :=
  match sm with
  | none => (none, false)
  | some m =>
    match m.lookup k with
    | some p => (some p, true)
    | none => (none, false)

/-- Go `delete(m, k)`: a no-op on a nil map. -/
def mapDelete (sm : SessionMap) (k : Nat) : SessionMap :=
  match sm with
  | none => none
  | some m => some (m.erase k)

/-- Go `m[k] = v`: panics on a nil map. -/
def mapSet (sm : SessionMap) (k p : Nat) : Except Fault SessionMap :=
  match sm with
  | none => .error .nilMapWrite
  | some m => .ok (some (m.insert k p))

/-- Go `make(map[uint16]*Session, 16)`. -/
def mapMake : SessionMap := some ∅

/-- The values met by `for _, s := range m`. -/
def mapValues : SessionMap → List Nat
  | none => []
  | some m => m.entries.map (fun e => e.2)

/-- Go `make(chan uint16)`: the new channel and the extended table. -/
def makeChan (chans : List Bool) : Nat × List Bool :=
  (chans.length, chans ++ [false])

/-- Go `close(c)`: panics on a nil channel and on a closed one. -/
def closeChan (chans : List Bool) (c : Option Nat) : Except Fault (List Bool) :=
  match c with
  | none => .error .closeNilChan
  | some i =>
    match chans[i]? with
    | none => .error .closeNilChan
    | some true => .error .closeClosedChan
    | some false => .ok (chans.set i true)

/-- Modelled from the spec: `common.Close` of the package `common`, which is not among
the sources.  It releases the capability behind an interface value: for the nil interface
nothing happens, otherwise the stream is closed (an effect) and the close may fail, as
told by `fails`.  The result is the new trace and whether an error is returned. -/
def commonClose (fails : Nat → Bool) (obj : Option Nat) (tr : List Event) :
    List Event × Bool :=
  match obj with
  | none => (tr, false)
  | some r => (tr ++ [Event.closeStream r (fails r)], fails r)

/-! ## The registry -/

/-- The function `NewSessionManager`; `self` is the address of the new registry. -/
def NewSessionManager (self : Nat) : World :=
  { self := self
    mgr := { count := 0, sessions := mapMake, closed := false, requestChan := some 0 }
    heap := []
    chans := [false]
    trace := [] }

/-- The method `Closed`. -/
def SessionManager.Closed (w : World) : Bool :=
  w.mgr.closed

/-- The method `Size`. -/
def SessionManager.Size (w : World) : Nat :=
  mapLen w.mgr.sessions

/-- The method `Count`. -/
def SessionManager.Count (w : World) : Nat :=
  w.mgr.count

/-- The method `Allocate`: the new state and the returned pointer (`none` is nil). -/
def SessionManager.Allocate (w : World) : Except Fault (World × Option Nat) :=
  if w.mgr.closed then .ok (w, none)
  else
    let c := (w.mgr.count + 1) % 65536
    let ch := makeChan w.chans
    let s : Session :=
      { ID := c, parent := some w.self, tokenChan := some ch.1,
        input := none, output := none, transferType := 0 }
    let p := w.heap.length
    match mapSet w.mgr.sessions s.ID p with
    | .error f => .error f
    | .ok sm =>
      .ok ({ w with
              mgr := { w.mgr with count := c, sessions := sm }
              heap := w.heap ++ [s]
              chans := ch.2 }, some p)

/-- The method `Add`; `p` is the pointer `s`. -/
def SessionManager.Add (w : World) (p : Nat) : Except Fault World :=
  if w.mgr.closed then .ok w
  else
    match w.heap[p]? with
    | none => .error .nilDeref
    | some s =>
      let ch := makeChan w.chans
      let c := (w.mgr.count + 1) % 65536
      match mapSet w.mgr.sessions s.ID p with
      | .error f => .error f
      | .ok sm =>
        .ok { w with
              mgr := { w.mgr with count := c, sessions := sm }
              heap := w.heap.set p { s with tokenChan := some ch.1 }
              chans := ch.2 }

/-- The method `Remove`. -/
def SessionManager.Remove (w : World) (id : Nat) : World :=
  if w.mgr.closed then w
  else
    let sm := mapDelete w.mgr.sessions id
    let sm := if mapLen sm = 0 then mapMake else sm
    { w with mgr := { w.mgr with sessions := sm } }

/-- The method `Get`. -/
def SessionManager.Get (w : World) (id : Nat) : Option Nat × Bool :=
  if w.mgr.closed then (none, false)
  else mapGet w.mgr.sessions id

/-- The method `CloseIfNoSession`. -/
def SessionManager.CloseIfNoSession (w : World) : World × Bool :=
  if w.mgr.closed then (w, true)
  else if mapLen w.mgr.sessions ≠ 0 then (w, false)
  else ({ w with mgr := { w.mgr with closed := true } }, true)

/-- The loop of `Close`: `common.Close(s.input)` and `common.Close(s.output)` for
every `s` of the map. -/
def closeAll (fails : Nat → Bool) (heap : List Session) :
    List Nat → List Event → Except Fault (List Event)
  | [], tr => .ok tr
  | p :: rest, tr =>
    match heap[p]? with
    | none => .error .nilDeref
    | some s =>
      let tr1 := (commonClose fails s.input tr).1
      let tr2 := (commonClose fails s.output tr1).1
      closeAll fails heap rest tr2

/-- The effect of `close(c)` on a channel that is not nil. -/
def chanEvents : Option Nat → List Event
  | none => []
  | some c => [Event.closeChan c]

/-- The method `SessionManager.Close`: the new state and whether an error is returned. -/
def SessionManager.Close (fails : Nat → Bool) (w : World) : Except Fault (World × Bool) :=
  if w.mgr.closed then .ok (w, false)
  else
    match closeChan w.chans w.mgr.requestChan with
    | .error f => .error f
    | .ok chans =>
      match closeAll fails w.heap (mapValues w.mgr.sessions)
          (w.trace ++ chanEvents w.mgr.requestChan) with
      | .error f => .error f
      | .ok tr =>
        .ok ({ w with
                mgr := { w.mgr with closed := true, sessions := none }
                chans := chans
                trace := tr }, false)

/-- The method `Session.Close`; `p` is the receiver.  A parent other than the modelled
registry is outside the world, so its `Remove` changes nothing here. -/
def Session.Close (fails : Nat → Bool) (w : World) (p : Nat) : Except Fault (World × Bool) :=
  match w.heap[p]? with
  | none => .error .nilDeref
  | some s =>
    let tr1 := (commonClose fails s.output w.trace).1
    let tr2 := (commonClose fails s.input tr1).1
    match s.parent with
    | none => .error .nilDeref
    | some a =>
      let w1 := { w with trace := tr2 }
      if a = w.self then .ok (SessionManager.Remove w1 s.ID, false)
      else .ok (w1, false)

/-- The `ID` field of the session behind a pointer. -/
def sessionID (w : World) (p : Nat) : Option Nat :=
  (w.heap[p]?).map (fun s => s.ID)

/-! ## Sequences of calls -/

/-- One call made by a user of the registry.  `newSession` is a caller building a
`Session` value of its own (as it must before `Add`), `setStreams` a caller filling in
the streams of a session. -/
inductive Op where
  | allocate
  | add (s : Nat)
  | remove (id : Nat)
  | get (id : Nat)
  | size
  | count
  | closed
  | closeIfNoSession
  | close
  | sessionClose (s : Nat)
  | newSession (s : Session)
  | setStreams (s : Nat) (input output : Option Nat)
deriving DecidableEq

/-- The state after one call; results are dropped. -/
def step (fails : Nat → Bool) (w : World) : Op → Except Fault World
  | .allocate => (SessionManager.Allocate w).map (fun r => r.1)
  | .add s => SessionManager.Add w s
  | .remove id => .ok (SessionManager.Remove w id)
  | .get _ => .ok w
  | .size => .ok w
  | .count => .ok w
  | .closed => .ok w
  | .closeIfNoSession => .ok (SessionManager.CloseIfNoSession w).1
  | .close => (SessionManager.Close fails w).map (fun r => r.1)
  | .sessionClose s => (Session.Close fails w s).map (fun r => r.1)
  | .newSession s => .ok { w with heap := w.heap ++ [{ s with ID := s.ID % 65536 }] }
  | .setStreams s i o =>
    match w.heap[s]? with
    | none => .error .nilDeref
    | some x => .ok { w with heap := w.heap.set s { x with input := i, output := o } }

/-- The state after a sequence of calls, the first call first. -/
def runOps (fails : Nat → Bool) : World → List Op → Except Fault World
  | w, [] => .ok w
  | w, op :: ops =>
    match step fails w op with
    | .error f => .error f
    | .ok w1 => runOps fails w1 ops

/-- The states a registry made by `NewSessionManager` can be in. -/
def Reachable (fails : Nat → Bool) (self : Nat) (w : World) : Prop :=
  ∃ ops, runOps fails (NewSessionManager self) ops = .ok w

/-- Call `Allocate` `n` times: the final state and the returned pointers in call order. -/
def allocateN : Nat → World → Except Fault (World × List (Option Nat))
  | 0, w => .ok (w, [])
  | n + 1, w =>
    match SessionManager.Allocate w with
    | .error f => .error f
    | .ok (w1, r) =>
      match allocateN n w1 with
      | .error f => .error f
      | .ok (w2, rs) => .ok (w2, r :: rs)

/-- What every call keeps true of a registry made by `NewSessionManager`: a closed
registry has an empty mapping; an open one has an allocated mapping and an open request
channel; every pointer stored in the mapping is a live `Session` object. -/
structure Inv (w : World) : Prop where
  closedEmpty : w.mgr.closed = true → mapLen w.mgr.sessions = 0
  openMap : w.mgr.closed = false → ∃ m, w.mgr.sessions = some m
  openChan : w.mgr.closed = false →
    ∃ c, w.mgr.requestChan = some c ∧ w.chans[c]? = some false
  valid : ∀ p ∈ mapValues w.mgr.sessions, p < w.heap.length

/-- The calls that only allocate or release sessions: `Allocate`, `Remove` and
`Session.Close`. -/
def Op.allocOrRelease : Op → Bool
  | .allocate => true
  | .remove _ => true
  | .sessionClose _ => true
  | _ => false

/-- The shape of a registry on which only `Allocate`, `Remove` and `Session.Close` have
been called, `k` of the calls being `Allocate`: it is open, its `Session` objects are the
`k` allocated ones, the one allocated by call number `i + 1` carrying the ID
`(i + 1) mod 65536`. -/
structure AllocOnly (w : World) (k : Nat) : Prop where
  isOpen : w.mgr.closed = false
  hasMap : ∃ m, w.mgr.sessions = some m
  heapLen : w.heap.length = k
  ids : ∀ i, i < k → sessionID w i = some ((i + 1) % 65536)
  counter : w.mgr.count = k % 65536

/-- Keys match IDs: whatever the mapping holds under key `k` is a session whose `ID`
field is `k`. -/
def KeysMatch (w : World) : Prop :=
  ∀ k p, mapGet w.mgr.sessions k = (some p, true) → sessionID w p = some k

/-! ## The registry as the specification words it -/

/-- For every ID the session the specification takes to be registered under it. -/
abbrev RegTable := Nat → Option Nat

/-- The table with the entry of `id` replaced. -/
def regSet (t : RegTable) (id : Nat) (v : Option Nat) : RegTable :=
  fun j => if j = id then v else t j

/-- The effect of one call on the table, in the words of the specification: `Allocate`
and `Add` register the session under its ID (on a closed registry they register nothing),
`Remove(id)` and the `Close` of a session with that ID end the registration.  With
`owned` set, the `Close` of a session counts only when its parent is this registry. -/
def specStep (owned : Bool) (w : World) (t : RegTable) : Op → RegTable
  | .allocate =>
    match SessionManager.Allocate w with
    | .ok (w1, some p) =>
      match sessionID w1 p with
      | some id => regSet t id (some p)
      | none => t
    | _ => t
  | .add p =>
    if w.mgr.closed then t
    else
      match sessionID w p with
      | some id => regSet t id (some p)
      | none => t
  | .remove id => regSet t id none
  | .sessionClose p =>
    match w.heap[p]? with
    | none => t
    | some s =>
      if owned && decide (s.parent ≠ some w.self) then t
      else regSet t s.ID none
  | _ => t

/-- Run the calls on the code and on the table side by side. -/
def specRun (fails : Nat → Bool) (owned : Bool) :
    World → RegTable → List Op → Except Fault (World × RegTable)
  | w, t, [] => .ok (w, t)
  | w, t, op :: ops =>
    match step fails w op with
    | .error f => .error f
    | .ok w1 => specRun fails owned w1 (specStep owned w t op) ops

/-- The result of a lookup: the session and found, or nil and not-found. -/
def foundPair : Option Nat → Option Nat × Bool
  | some p => (some p, true)
  | none => (none, false)

/-- What the specification says `Get(id)` returns: not-found when the registry is closed
or nothing is registered under `id`, else the registered session. -/
def specGet (w : World) (t : RegTable) (id : Nat) : Option Nat × Bool :=
  if SessionManager.Closed w then (none, false)
  else foundPair (t id)

/-- Call `Session.Close` on the same session `n` times in a row. -/
def closeRepeatedly (fails : Nat → Bool) : Nat → World → Nat → Except Fault World
  | 0, w, _ => .ok w
  | n + 1, w, p =>
    match Session.Close fails w p with
    | .error f => .error f
    | .ok (w1, _) => closeRepeatedly fails n w1 p

/-! ## The token protocol

The goroutine `sendToken` and the calls of `ReadMultiBuffer` run concurrently with the
calls on the registry.  They are modelled as a transition system: a state holds the
registry, the place where the scheduler stands, the place where the read of every
session stands, and a log of what the readers did.  One action moves one goroutine by
one step.  The channels are unbuffered, so a send inside a `select` with a `default`
goes through only when a receiver is parked on the channel at that moment; no goroutine
ever blocks in a send.  No token channel is ever closed by this code (only
`close(m.requestChan)` occurs), so a receive on a token channel ends only through an
offer of the scheduler. -/

/-- How a reader got its permission: its send on the request channel went through, or it
received a token. -/
inductive Grant where
  | demand
  | token
deriving DecidableEq, Repr

/-- Where a call of `ReadMultiBuffer` stands: no call yet, at the `select`, in the
`default` branch about to receive from `s.tokenChan`, parked in that receive (on
channel `c`), past the `select` and about to call `s.input.ReadMultiBuffer()`, or returned
with the result `res`. -/
inductive ReadPc where
  | notReading
  | atSelect
  | toWait
  | waitToken (c : Option Nat)
  | granted (g : Grant)
  | returned (res : Nat)
deriving DecidableEq, Repr

/-- Where `sendToken` stands: at the top of the outer loop, inside the scan (holding the
read lock, with the sessions still to be offered a token and the value of `hit`), past
`RUnlock` and about to test `hit`, parked in `<-m.requestChan`, or past the `break`. -/
inductive SchedPc where
  | top
  | scan (rest : List Nat) (hit : Bool)
  | afterScan (hit : Bool)
  | idle
  | stopped
deriving DecidableEq, Repr

/-- What readers do, in the order in which it happens: a call of `ReadMultiBuffer`, a
completed send on the request channel, a received token, the call of the underlying
read on the stream `r` held in `s.input` with its result, the return with its result. -/
inductive CEvent where
  | call (p : Nat)
  | sendDone (p : Nat)
  | tokenRecv (p : Nat)
  | read (p r res : Nat)
  | ret (p res : Nat)
deriving DecidableEq, Repr

/-- The session an event belongs to. -/
def CEvent.session : CEvent → Nat
  | .call p => p
  | .sendDone p => p
  | .tokenRecv p => p
  | .read p _ _ => p
  | .ret p _ => p

/-- The state of the concurrent system. -/
structure Conc where
  w : World
  sched : SchedPc
  readers : Nat → ReadPc
  log : List CEvent

/-- The table of readers with the entry of `p` replaced. -/
def setReader (readers : Nat → ReadPc) (p : Nat) (pc : ReadPc) : Nat → ReadPc :=
  fun q => if q = p then pc else readers q

/-- The system right after `NewSessionManager` has started `sendToken`, on registry `w`. -/
def startConc (w : World) : Conc :=
  { w := w, sched := .top, readers := fun _ => .notReading, log := [] }

/-- Go `select { case c <- v: ...; default: ... }`: whether the send goes through.  A
nil channel is never ready, a closed one panics, an open one takes the value only when
a receiver is parked on it. -/
def trySend (chans : List Bool) (c : Option Nat) (receiverParked : Bool) :
    Except Fault Bool :=
  match c with
  | none => .ok false
  | some i =>
    match chans[i]? with
    | none => .ok false
    | some true => .error .sendClosedChan
    | some false => .ok receiverParked

/-- Whether the channel is one that has been closed. -/
def chanClosed (chans : List Bool) (c : Option Nat) : Bool :=
  match c with
  | none => false
  | some i => chans[i]? = some true

/-- One step of the method `sendToken`; `none` when it is parked or has ended.
At `top` it takes the read lock and starts the range over the sessions.  Inside the scan
it offers a token to the next session; the offer goes through when that session is parked
on that very channel.  At the end of the range it releases the lock.  Then it starts
over when `hit` is set, else it receives from the request channel: a closed channel ends the goroutine, otherwise it parks (a
sender never waits, so nothing can be received at once).  Parked, it goes on only when
the channel gets closed; a sender that finds it parked moves it to `top` itself. -/
def SessionManager.sendToken (c : Conc) : Except Fault (Option Conc) :=
  match c.sched with
  | .top => .ok (some { c with sched := .scan (mapValues c.w.mgr.sessions) false })
  | .scan (p :: rest) hit =>
    match c.w.heap[p]? with
    | none => .error .nilDeref
    | some s =>
      match trySend c.w.chans s.tokenChan (decide (c.readers p = .waitToken s.tokenChan)) with
      | .error f => .error f
      | .ok true =>
        .ok (some { c with
                    sched := .scan rest true
                    readers := setReader c.readers p (.granted .token)
                    log := c.log ++ [CEvent.tokenRecv p] })
      | .ok false => .ok (some { c with sched := .scan rest hit })
  | .scan [] hit => .ok (some { c with sched := .afterScan hit })
  | .afterScan hit =>
    if hit then .ok (some { c with sched := .top })
    else if chanClosed c.w.chans c.w.mgr.requestChan then .ok (some { c with sched := .stopped })
    else .ok (some { c with sched := .idle })
  | .idle =>
    if chanClosed c.w.chans c.w.mgr.requestChan then .ok (some { c with sched := .stopped })
    else .ok none
  | .stopped => .ok none

/-- One step of the method `Session.ReadMultiBuffer` of session `p`; `none` when the
call is parked or there is no call.  `rd r` is what `ReadMultiBuffer` of stream `r`
returns, the pair of buffer and error as one value.  At the `select` the send of the ID
on the parent's request channel goes through exactly when the scheduler is parked there,
and wakes it; otherwise the reader takes the `default` branch and, in a step of its
own, parks on its token channel.  With permission it calls
the underlying read and returns its result.  A parent other than the modelled registry
is outside the system. -/
def Session.ReadMultiBuffer (rd : Nat → Nat) (c : Conc) (p : Nat) :
    Except Fault (Option Conc) :=
  match c.readers p with
  | .atSelect =>
    match c.w.heap[p]? with
    | none => .error .nilDeref
    | some s =>
      match s.parent with
      | none => .error .nilDeref
      | some a =>
        if a = c.w.self then
          match trySend c.w.chans c.w.mgr.requestChan (decide (c.sched = .idle)) with
          | .error f => .error f
          | .ok true =>
            .ok (some { c with
                        sched := .top
                        readers := setReader c.readers p (.granted .demand)
                        log := c.log ++ [CEvent.sendDone p] })
          | .ok false =>
            .ok (some { c with readers := setReader c.readers p .toWait })
        else .ok none
  | .toWait =>
    match c.w.heap[p]? with
    | none => .error .nilDeref
    | some s => .ok (some { c with readers := setReader c.readers p (.waitToken s.tokenChan) })
  | .granted _ =>
    match c.w.heap[p]? with
    | none => .error .nilDeref
    | some s =>
      match s.input with
      | none => .error .nilDeref
      | some r =>
        .ok (some { c with
                    readers := setReader c.readers p (.returned (rd r))
                    log := c.log ++ [CEvent.read p r (rd r), CEvent.ret p (rd r)] })
  | _ => .ok none

/-- Whether `sendToken` holds the read lock. -/
def SchedPc.holdsLock : SchedPc → Bool
  | .scan _ _ => true
  | _ => false

/-- The calls that take the write lock of the registry. -/
def Op.takesLock : Op → Bool
  | .allocate => true
  | .add _ => true
  | .remove _ => true
  | .closeIfNoSession => true
  | .close => true
  | .sessionClose _ => true
  | _ => false

/-- One move of the system: a call on the registry, a step of the scheduler, a new call
of `ReadMultiBuffer` on session `p`, or a step of the call running on session `p`. -/
inductive Act where
  | op (o : Op)
  | sched
  | call (p : Nat)
  | reader (p : Nat)
deriving DecidableEq

/-- The state after one move; `none` when the move cannot be made now (the goroutine is
parked, a writer waits for the read lock, a call is already running on the session). -/
def cstep (fails : Nat → Bool) (rd : Nat → Nat) (c : Conc) : Act → Except Fault (Option Conc)
  | .op o =>
    if Op.takesLock o && SchedPc.holdsLock c.sched then .ok none
    else
      match step fails c.w o with
      | .error f => .error f
      | .ok w1 => .ok (some { c with w := w1 })
  | .sched => SessionManager.sendToken c
  | .call p =>
    match c.readers p with
    | .notReading =>
      .ok (some { c with readers := setReader c.readers p .atSelect
                         log := c.log ++ [CEvent.call p] })
    | .returned _ =>
      .ok (some { c with readers := setReader c.readers p .atSelect
                         log := c.log ++ [CEvent.call p] })
    | _ => .ok none
  | .reader p => Session.ReadMultiBuffer rd c p

/-- The state after a sequence of moves, the first move first. -/
def runActs (fails : Nat → Bool) (rd : Nat → Nat) :
    Conc → List Act → Except Fault (Option Conc)
  | c, [] => .ok (some c)
  | c, a :: acts =>
    match cstep fails rd c a with
    | .error f => .error f
    | .ok none => .ok none
    | .ok (some c1) => runActs fails rd c1 acts

/-- The events of session `p` since its latest call of `ReadMultiBuffer`. -/
def sinceCall (p : Nat) (log : List CEvent) : List CEvent :=
  log.foldl (fun acc e =>
    if e = CEvent.call p then [] else if e.session = p then acc ++ [e] else acc) []

/-- The event by which a permission is got. -/
def Grant.event (p : Nat) : Grant → CEvent
  | .demand => CEvent.sendDone p
  | .token => CEvent.tokenRecv p

/-- What the log holds about session `p` since its latest call, by the place where the
call stands: nothing before the permission; with the permission, the one event that
gave it; after the return, that event, one underlying read of some stream `r` with the
result `rd r`, and the return of that very result. -/
def ReaderOK (rd : Nat → Nat) (c : Conc) (p : Nat) : Prop :=
  match c.readers p with
  | .notReading => CEvent.call p ∉ c.log
  | .atSelect => CEvent.call p ∈ c.log ∧ sinceCall p c.log = []
  | .toWait => CEvent.call p ∈ c.log ∧ sinceCall p c.log = []
  | .waitToken _ => CEvent.call p ∈ c.log ∧ sinceCall p c.log = []
  | .granted g => CEvent.call p ∈ c.log ∧ sinceCall p c.log = [g.event p]
  | .returned res =>
    CEvent.call p ∈ c.log ∧
    ∃ (g : Grant) (r : Nat), res = rd r ∧
      sinceCall p c.log = [g.event p, CEvent.read p r (rd r), CEvent.ret p (rd r)]

/-- The kinds of moves, by what they do to the readers and the log: nothing; a new
call; a send that went through (the scheduler was parked and is woken); a `select` that
took the `default` branch; parking on the token channel; a token received from the scan;
the underlying read and the return of its result. -/
inductive Move (rd : Nat → Nat) (c : Conc) (act : Act) (c1 : Conc) : Prop where
  | quiet (hr : c1.readers = c.readers) (hl : c1.log = c.log)
  | called (q : Nat) (ha : act = Act.call q)
      (hpc : c.readers q = .notReading ∨ ∃ res, c.readers q = .returned res)
      (hr : c1.readers = setReader c.readers q .atSelect)
      (hl : c1.log = c.log ++ [CEvent.call q])
  | sent (q : Nat) (ha : act = Act.reader q) (hpc : c.readers q = .atSelect)
      (hs : c.sched = .idle) (hs1 : c1.sched = .top)
      (hr : c1.readers = setReader c.readers q (.granted .demand))
      (hl : c1.log = c.log ++ [CEvent.sendDone q])
  | missed (q : Nat) (ha : act = Act.reader q) (hpc : c.readers q = .atSelect)
      (hr : c1.readers = setReader c.readers q .toWait) (hl : c1.log = c.log)
  | parked (q : Nat) (ch : Option Nat) (ha : act = Act.reader q)
      (hpc : c.readers q = .toWait)
      (hr : c1.readers = setReader c.readers q (.waitToken ch)) (hl : c1.log = c.log)
  | tokened (q : Nat) (rest : List Nat) (hit : Bool) (s : Session) (ha : act = Act.sched)
      (hs : c.sched = .scan (q :: rest) hit) (hh : c.w.heap[q]? = some s)
      (hpc : c.readers q = .waitToken s.tokenChan)
      (hr : c1.readers = setReader c.readers q (.granted .token))
      (hl : c1.log = c.log ++ [CEvent.tokenRecv q])
  | readDone (q : Nat) (g : Grant) (s : Session) (r : Nat) (ha : act = Act.reader q)
      (hpc : c.readers q = .granted g) (hh : c.w.heap[q]? = some s)
      (hin : s.input = some r)
      (hr : c1.readers = setReader c.readers q (.returned (rd r)))
      (hl : c1.log = c.log ++ [CEvent.read q r (rd r), CEvent.ret q (rd r)])

/-! ## Sample states -/

/-- A registry after `Allocate` and after the caller has set the streams of the new
session to 10 (input) and 11 (output). -/
def oneSession : World :=
  { self := 0
    mgr := { sessions := some ((∅ : AList (fun _ : Nat => Nat)).insert 1 0), count := 1,
             closed := false, requestChan := some 0 }
    heap := [{ ID := 1, parent := some 0, tokenChan := some 1, input := some 10,
               output := some 11, transferType := 0 }]
    chans := [false, false]
    trace := [] }

/-- The calls that lead to `oneSession`. -/
def oneSessionOps : List Op :=
  [Op.allocate, Op.setStreams 0 (some 10) (some 11)]

/-- The state `oneSession` after `SessionManager.Close`, when the closes of streams
fail as `failed` says. -/
def oneSessionClosed (failed : Bool) : World :=
  { self := 0
    mgr := { sessions := none, count := 1, closed := true, requestChan := some 0 }
    heap := [{ ID := 1, parent := some 0, tokenChan := some 1, input := some 10,
               output := some 11, transferType := 0 }]
    chans := [true, false]
    trace := [Event.closeChan 0, Event.closeStream 10 failed, Event.closeStream 11 failed] }

/-- Calls made on a registry that has been closed. -/
def lateOps : List Op :=
  [Op.allocate, Op.add 0, Op.remove 1, Op.closeIfNoSession, Op.close, Op.sessionClose 0]

/-- The state `oneSessionClosed false` after `lateOps`: only the session's own `Close`
has left a mark, the two closes of its streams. -/
def oneSessionLate : World :=
  { oneSessionClosed false with
    trace := (oneSessionClosed false).trace ++
      [Event.closeStream 11 false, Event.closeStream 10 false] }

/-- Two allocations followed by the release of both sessions. -/
def releaseOps : List Op :=
  [Op.allocate, Op.allocate, Op.sessionClose 0, Op.remove 2]

/-- The state of a new registry after `releaseOps`. -/
def twoReleased : World :=
  { self := 0
    mgr := { sessions := some ∅, count := 2, closed := false, requestChan := some 0 }
    heap := [{ ID := 1, parent := some 0, tokenChan := some 1, input := none,
               output := none, transferType := 0 },
             { ID := 2, parent := some 0, tokenChan := some 2, input := none,
               output := none, transferType := 0 }]
    chans := [false, false, false]
    trace := [] }

/-- A session built by a caller, with ID 7 and no token channel yet. -/
def ownSession : Session :=
  { ID := 7, parent := some 0, tokenChan := none, input := some 20, output := some 21,
    transferType := 1 }

/-- The state `oneSession` with `ownSession` built next to it, at pointer 1. -/
def withOwnSession : World :=
  { oneSession with heap := oneSession.heap ++ [ownSession] }

/-- The calls that lead to `withOwnSession`. -/
def withOwnSessionOps : List Op :=
  oneSessionOps ++ [Op.newSession ownSession]

/-- A session built by a caller who left the parent nil. -/
def orphanSession : Session :=
  { ID := 7, parent := none, tokenChan := none, input := some 20, output := some 21,
    transferType := 1 }

/-- A session built by a caller whose parent is another registry, at address 5. -/
def foreignSession : Session :=
  { ID := 7, parent := some 5, tokenChan := none, input := some 20, output := some 21,
    transferType := 1 }

/-- Allocate a session, close it, register a caller-built session under the same ID 1. -/
def reuseOps : List Op :=
  [Op.allocate, Op.sessionClose 0,
   Op.newSession { ID := 1, parent := some 0, tokenChan := none, input := none,
                   output := none, transferType := 0 },
   Op.add 1]

/-- A schedule that loses a wake-up: one session is allocated; the scheduler scans,
finds nobody waiting and releases the lock; the session calls `ReadMultiBuffer`, finds
the scheduler not yet parked and parks on its token channel; the scheduler parks. -/
def lostWakeup : List Act :=
  [Act.op Op.allocate, Act.sched, Act.sched, Act.sched, Act.call 0, Act.reader 0,
   Act.reader 0, Act.sched]

/-- A read after the registry has been closed. -/
def readAfterClose : List Act :=
  [Act.op Op.allocate, Act.op Op.close, Act.call 0, Act.reader 0]

/-- A schedule with a read through each way of permission: the scheduler parks, the
session sends its demand and reads; it calls again while the scheduler is scanning,
parks, and is given a token. -/
def twoReads : List Act :=
  [Act.sched, Act.sched, Act.sched, Act.sched, Act.call 0, Act.reader 0, Act.reader 0,
   Act.call 0, Act.reader 0, Act.reader 0, Act.sched, Act.sched, Act.reader 0]

/-- The state of the system on `oneSession` after the schedule `twoReads`, the
underlying read of stream `r` returning `r + 100`. -/
def twoReadsEnd : Conc :=
  match runActs (fun _ => false) (fun r => r + 100) (startConc oneSession) twoReads with
  | .ok (some c) => c
  | _ => startConc oneSession

/-! ## Basic facts -/

theorem mapGet_none (k : Nat) : mapGet none k = (none, false) := rfl

theorem mapGet_make (k : Nat) : mapGet mapMake k = (none, false) := rfl

theorem mapLen_eq_zero_get {sm : SessionMap} (h : mapLen sm = 0) (k : Nat) :
    mapGet sm k = (none, false) := by
  cases sm with
  | none => rfl
  | some m =>
    have he : m.entries = [] := List.length_eq_zero.mp h
    have hm : m = ∅ := AList.ext he
    subst hm
    rfl

theorem mapDelete_of_not_found {sm : SessionMap} {k : Nat} (h : (mapGet sm k).2 = false) :
    mapDelete sm k = sm := by
  cases sm with
  | none => rfl
  | some m =>
    have hl : m.lookup k = none := by
      cases hk : m.lookup k with
      | none => rfl
      | some p => simp [mapGet, hk] at h
    have hmem : k ∉ m.keys := fun hmem => AList.lookup_eq_none.mp hl (AList.mem_keys.mpr hmem)
    simp only [mapDelete]
    congr 1
    exact AList.ext (List.kerase_of_not_mem_keys hmem)

theorem mapValues_insert {m : AList (fun _ : Nat => Nat)} {k p q : Nat}
    (h : q ∈ mapValues (some (m.insert k p))) : q = p ∨ q ∈ mapValues (some m) := by
  simp only [mapValues, AList.insert_entries, List.map_cons, List.mem_cons] at h
  rcases h with h | h
  · exact Or.inl h
  · right
    simp only [mapValues]
    exact ((List.kerase_sublist k m.entries).map _).subset h

theorem mapValues_delete {sm : SessionMap} {k q : Nat}
    (h : q ∈ mapValues (mapDelete sm k)) : q ∈ mapValues sm := by
  cases sm with
  | none => exact h
  | some m =>
    simp only [mapDelete, mapValues, AList.erase] at h
    simp only [mapValues]
    exact ((List.kerase_sublist k m.entries).map _).subset h

theorem allocate_closed {w : World} (hc : w.mgr.closed = true) :
    SessionManager.Allocate w = .ok (w, none) := by
  simp [SessionManager.Allocate, hc]

theorem allocate_open {w : World} {m : AList (fun _ : Nat => Nat)}
    (hc : w.mgr.closed = false) (hm : w.mgr.sessions = some m) :
    SessionManager.Allocate w = .ok
      ({ w with
          mgr := { w.mgr with
                    count := (w.mgr.count + 1) % 65536
                    sessions := some (m.insert ((w.mgr.count + 1) % 65536) w.heap.length) }
          heap := w.heap ++ [{ ID := (w.mgr.count + 1) % 65536, parent := some w.self,
                               tokenChan := some w.chans.length, input := none,
                               output := none, transferType := 0 }]
          chans := w.chans ++ [false] }, some w.heap.length) := by
  simp [SessionManager.Allocate, hc, hm, mapSet, makeChan]

theorem add_open {w : World} {m : AList (fun _ : Nat => Nat)} {p : Nat} {s : Session}
    (hc : w.mgr.closed = false) (hm : w.mgr.sessions = some m) (hs : w.heap[p]? = some s) :
    SessionManager.Add w p = .ok
      { w with
        mgr := { w.mgr with
                  count := (w.mgr.count + 1) % 65536
                  sessions := some (m.insert s.ID p) }
        heap := w.heap.set p { s with tokenChan := some w.chans.length }
        chans := w.chans ++ [false] } := by
  simp [SessionManager.Add, hc, hm, hs, mapSet, makeChan]

theorem chan_append {chans : List Bool} {c : Nat} (h : chans[c]? = some false) :
    (chans ++ [false])[c]? = some false := by
  have hlt : c < chans.length := by
    rcases List.getElem?_eq_some_iff.mp h with ⟨hlt, _⟩
    exact hlt
  rw [List.getElem?_append_left hlt]
  exact h

theorem allocate_inv {w w1 : World} {r : Option Nat} (hi : Inv w)
    (h : SessionManager.Allocate w = .ok (w1, r)) : Inv w1 := by
  cases hc : w.mgr.closed with
  | true =>
    rw [allocate_closed hc] at h
    simp only [Except.ok.injEq, Prod.mk.injEq] at h
    rw [← h.1]
    exact hi
  | false =>
    obtain ⟨m, hm⟩ := hi.openMap hc
    obtain ⟨c, hrc, hch⟩ := hi.openChan hc
    rw [allocate_open hc hm] at h
    simp only [Except.ok.injEq, Prod.mk.injEq] at h
    rw [← h.1]
    refine ⟨?_, ?_, ?_, ?_⟩
    · intro hcl
      simp [hc] at hcl
    · intro _
      exact ⟨_, rfl⟩
    · intro _
      exact ⟨c, hrc, chan_append hch⟩
    · intro q hq
      have hv := hi.valid
      rw [hm] at hv
      simp only [List.length_append, List.length_singleton]
      rcases mapValues_insert hq with h1 | h1
      · omega
      · have := hv q h1
        omega

theorem add_inv {w w1 : World} {p : Nat} (hi : Inv w)
    (h : SessionManager.Add w p = .ok w1) : Inv w1 := by
  cases hc : w.mgr.closed with
  | true =>
    simp only [SessionManager.Add, hc, if_true, Except.ok.injEq] at h
    rw [← h]
    exact hi
  | false =>
    obtain ⟨m, hm⟩ := hi.openMap hc
    obtain ⟨c, hrc, hch⟩ := hi.openChan hc
    cases hs : w.heap[p]? with
    | none => simp [SessionManager.Add, hc, hs] at h
    | some s =>
      rw [add_open hc hm hs] at h
      simp only [Except.ok.injEq] at h
      rw [← h]
      have hp : p < w.heap.length := by
        rcases List.getElem?_eq_some_iff.mp hs with ⟨hlt, _⟩
        exact hlt
      refine ⟨?_, ?_, ?_, ?_⟩
      · intro hcl
        simp [hc] at hcl
      · intro _
        exact ⟨_, rfl⟩
      · intro _
        exact ⟨c, hrc, chan_append hch⟩
      · intro q hq
        have hv := hi.valid
        rw [hm] at hv
        simp only [List.length_set]
        rcases mapValues_insert hq with h1 | h1
        · omega
        · exact hv q h1

theorem remove_inv {w : World} (id : Nat) (hi : Inv w) : Inv (SessionManager.Remove w id) := by
  cases hc : w.mgr.closed with
  | true =>
    simp only [SessionManager.Remove, hc, if_true]
    exact hi
  | false =>
    obtain ⟨m, hm⟩ := hi.openMap hc
    simp only [SessionManager.Remove, hc, Bool.false_eq_true, if_false]
    refine ⟨?_, ?_, ?_, ?_⟩
    · intro hcl
      simp [hc] at hcl
    · intro _
      by_cases hz : mapLen (mapDelete w.mgr.sessions id) = 0
      · exact ⟨∅, by simp [hz, mapMake]⟩
      · refine ⟨m.erase id, ?_⟩
        rw [hm] at hz
        simp only [mapDelete] at hz
        simp only [hm, mapDelete, hz, if_false]
    · intro _
      exact hi.openChan hc
    · intro q hq
      by_cases hz : mapLen (mapDelete w.mgr.sessions id) = 0
      · simp [hz, mapMake, mapValues] at hq
      · simp only [hz, if_false] at hq
        exact hi.valid q (mapValues_delete hq)

theorem closeIfNoSession_inv {w : World} (hi : Inv w) :
    Inv (SessionManager.CloseIfNoSession w).1 := by
  cases hc : w.mgr.closed with
  | true =>
    simp only [SessionManager.CloseIfNoSession, hc, if_true]
    exact hi
  | false =>
    by_cases hz : mapLen w.mgr.sessions = 0
    · simp only [SessionManager.CloseIfNoSession, hc, hz, Bool.false_eq_true, if_false,
        ne_eq, not_true_eq_false]
      refine ⟨fun _ => hz, ?_, ?_, hi.valid⟩
      · intro hcl
        simp at hcl
      · intro hcl
        simp at hcl
    · simp only [SessionManager.CloseIfNoSession, hc, hz, Bool.false_eq_true, if_false,
        ne_eq, not_false_eq_true, if_true]
      exact hi

theorem commonClose_fst (fails : Nat → Bool) (o : Option Nat) (tr : List Event) :
    (commonClose fails o tr).1 = tr ++ (commonClose fails o []).1 := by
  cases o <;> simp [commonClose]

theorem mem_commonClose (fails : Nat → Bool) (o : Option Nat) (e : Event) :
    e ∈ (commonClose fails o []).1 ↔ ∃ r, o = some r ∧ e = Event.closeStream r (fails r) := by
  cases o <;> simp [commonClose]

/-- The loop of `Close` runs through when every pointer of the map is a live object; it
appends exactly the closes of the streams held by the sessions it walks over. -/
theorem closeAll_spec (fails : Nat → Bool) (heap : List Session) :
    ∀ (ps : List Nat) (tr : List Event), (∀ p ∈ ps, p < heap.length) →
      ∃ evs, closeAll fails heap ps tr = .ok (tr ++ evs) ∧
        ∀ e, e ∈ evs ↔ ∃ p ∈ ps, ∃ s, heap[p]? = some s ∧
          ∃ r, (s.input = some r ∨ s.output = some r) ∧ e = Event.closeStream r (fails r)
  | [], tr, _ => ⟨[], by simp [closeAll], by simp⟩
  | p :: rest, tr, hv => by
    have hp : p < heap.length := hv p (List.mem_cons_self _ _)
    have hs : heap[p]? = some heap[p] := List.getElem?_eq_getElem hp
    generalize heap[p] = s at hs
    obtain ⟨evs, h1, h2⟩ := closeAll_spec fails heap rest
      ((commonClose fails s.output (commonClose fails s.input tr).1).1)
      (fun q hq => hv q (List.mem_cons_of_mem _ hq))
    refine ⟨(commonClose fails s.input []).1 ++ ((commonClose fails s.output []).1 ++ evs),
      ?_, ?_⟩
    · simp only [closeAll, hs]
      rw [h1, commonClose_fst fails s.output, commonClose_fst fails s.input]
      simp only [List.append_assoc]
    · intro e
      simp only [List.mem_append, mem_commonClose, h2]
      constructor
      · rintro (⟨r, hr, he⟩ | ⟨r, hr, he⟩ | ⟨q, hq, t, ht, r, hr, he⟩)
        · exact ⟨p, List.mem_cons_self _ _, s, hs, r, Or.inl hr, he⟩
        · exact ⟨p, List.mem_cons_self _ _, s, hs, r, Or.inr hr, he⟩
        · exact ⟨q, List.mem_cons_of_mem _ hq, t, ht, r, hr, he⟩
      · rintro ⟨q, hq, t, ht, r, hr, he⟩
        rcases List.mem_cons.mp hq with hqp | hqr
        · subst hqp
          rw [hs] at ht
          have hts : s = t := Option.some.inj ht
          subst hts
          rcases hr with hr | hr
          · exact Or.inl ⟨r, hr, he⟩
          · exact Or.inr (Or.inl ⟨r, hr, he⟩)
        · exact Or.inr (Or.inr ⟨q, hqr, t, ht, r, hr, he⟩)

theorem close_closed {fails : Nat → Bool} {w : World} (hc : w.mgr.closed = true) :
    SessionManager.Close fails w = .ok (w, false) := by
  simp [SessionManager.Close, hc]

theorem close_open {fails : Nat → Bool} {w : World} {c : Nat} {tr : List Event}
    (hc : w.mgr.closed = false) (hrc : w.mgr.requestChan = some c)
    (hch : w.chans[c]? = some false)
    (hca : closeAll fails w.heap (mapValues w.mgr.sessions)
      (w.trace ++ [Event.closeChan c]) = .ok tr) :
    SessionManager.Close fails w = .ok
      ({ w with
          mgr := { w.mgr with closed := true, sessions := none }
          chans := w.chans.set c true
          trace := tr }, false) := by
  simp [SessionManager.Close, hc, hrc, closeChan, hch, chanEvents, hca]

/-- A `Close` that returns leaves the registry closed with a nil mapping and an
untouched counter, and changes no `Session` object. -/
theorem close_ok_shape {fails : Nat → Bool} {w w1 : World} {e : Bool}
    (h : SessionManager.Close fails w = .ok (w1, e)) :
    e = false ∧ w1.mgr.closed = true ∧ w1.heap = w.heap ∧ w1.self = w.self ∧
    w1.mgr.count = w.mgr.count ∧ w1.mgr.requestChan = w.mgr.requestChan ∧
    (w.mgr.closed = true → w1 = w) ∧ (w.mgr.closed = false → w1.mgr.sessions = none) := by
  cases hcl : w.mgr.closed with
  | true =>
    rw [close_closed hcl] at h
    simp only [Except.ok.injEq, Prod.mk.injEq] at h
    obtain ⟨h1, h2⟩ := h
    subst h1
    simp [hcl, h2.symm]
  | false =>
    cases hcc : closeChan w.chans w.mgr.requestChan with
    | error f => simp [SessionManager.Close, hcl, hcc] at h
    | ok chans =>
      cases hca : closeAll fails w.heap (mapValues w.mgr.sessions)
          (w.trace ++ chanEvents w.mgr.requestChan) with
      | error f => simp [SessionManager.Close, hcl, hcc, hca] at h
      | ok tr =>
        simp only [SessionManager.Close, hcl, hcc, hca, Bool.false_eq_true, if_false,
          Except.ok.injEq, Prod.mk.injEq] at h
        obtain ⟨h1, h2⟩ := h
        subst h1
        simp [h2.symm]

theorem close_inv {fails : Nat → Bool} {w w1 : World} {e : Bool} (hi : Inv w)
    (h : SessionManager.Close fails w = .ok (w1, e)) : Inv w1 := by
  obtain ⟨_, hcl, _, _, _, _, hsame, hnil⟩ := close_ok_shape h
  cases hc : w.mgr.closed with
  | true =>
    rw [hsame hc]
    exact hi
  | false =>
    have hn := hnil hc
    refine ⟨?_, ?_, ?_, ?_⟩
    · intro _
      rw [hn]
      rfl
    · intro hf
      rw [hcl] at hf
      exact absurd hf (by simp)
    · intro hf
      rw [hcl] at hf
      exact absurd hf (by simp)
    · intro q hq
      rw [hn] at hq
      simp [mapValues] at hq

theorem sessionClose_ok_shape {fails : Nat → Bool} {w w1 : World} {p : Nat} {e : Bool}
    (h : Session.Close fails w p = .ok (w1, e)) :
    e = false ∧ ∃ s a, w.heap[p]? = some s ∧ s.parent = some a ∧
      ((a = w.self ∧ w1 = SessionManager.Remove
          { w with trace := (commonClose fails s.input
              (commonClose fails s.output w.trace).1).1 } s.ID) ∨
       (a ≠ w.self ∧ w1 =
          { w with trace := (commonClose fails s.input
              (commonClose fails s.output w.trace).1).1 })) := by
  cases hs : w.heap[p]? with
  | none => simp [Session.Close, hs] at h
  | some s =>
    cases hp : s.parent with
    | none => simp [Session.Close, hs, hp] at h
    | some a =>
      by_cases ha : a = w.self
      · simp only [Session.Close, hs, hp, ha, if_true, Except.ok.injEq, Prod.mk.injEq] at h
        exact ⟨h.2.symm, s, a, rfl, hp, Or.inl ⟨ha, h.1.symm⟩⟩
      · simp only [Session.Close, hs, hp, ha, if_false, Except.ok.injEq, Prod.mk.injEq] at h
        exact ⟨h.2.symm, s, a, rfl, hp, Or.inr ⟨ha, h.1.symm⟩⟩

theorem trace_inv {w : World} (tr : List Event) (hi : Inv w) : Inv { w with trace := tr } :=
  ⟨hi.closedEmpty, hi.openMap, hi.openChan, hi.valid⟩

theorem sessionClose_inv {fails : Nat → Bool} {w w1 : World} {p : Nat} {e : Bool}
    (hi : Inv w) (h : Session.Close fails w p = .ok (w1, e)) : Inv w1 := by
  obtain ⟨_, s, a, _, _, hw⟩ := sessionClose_ok_shape h
  rcases hw with ⟨_, hw⟩ | ⟨_, hw⟩
  · rw [hw]
    exact remove_inv _ (trace_inv _ hi)
  · rw [hw]
    exact trace_inv _ hi

theorem step_inv {fails : Nat → Bool} {w w1 : World} {op : Op} (hi : Inv w)
    (h : step fails w op = .ok w1) : Inv w1 := by
  cases op with
  | allocate =>
    cases hr : SessionManager.Allocate w with
    | error f => simp [step, hr, Except.map] at h
    | ok r =>
      simp only [step, hr, Except.map, Except.ok.injEq] at h
      rw [← h]
      exact allocate_inv hi hr
  | add s => exact add_inv hi h
  | remove id =>
    simp only [step, Except.ok.injEq] at h
    rw [← h]
    exact remove_inv id hi
  | get id =>
    simp only [step, Except.ok.injEq] at h
    rw [← h]
    exact hi
  | size =>
    simp only [step, Except.ok.injEq] at h
    rw [← h]
    exact hi
  | count =>
    simp only [step, Except.ok.injEq] at h
    rw [← h]
    exact hi
  | closed =>
    simp only [step, Except.ok.injEq] at h
    rw [← h]
    exact hi
  | closeIfNoSession =>
    simp only [step, Except.ok.injEq] at h
    rw [← h]
    exact closeIfNoSession_inv hi
  | close =>
    cases hr : SessionManager.Close fails w with
    | error f => simp [step, hr, Except.map] at h
    | ok r =>
      simp only [step, hr, Except.map, Except.ok.injEq] at h
      rw [← h]
      exact close_inv hi hr
  | sessionClose s =>
    cases hr : Session.Close fails w s with
    | error f => simp [step, hr, Except.map] at h
    | ok r =>
      simp only [step, hr, Except.map, Except.ok.injEq] at h
      rw [← h]
      exact sessionClose_inv hi hr
  | newSession s =>
    simp only [step, Except.ok.injEq] at h
    rw [← h]
    refine ⟨hi.closedEmpty, hi.openMap, hi.openChan, ?_⟩
    intro q hq
    have := hi.valid q hq
    simp only [List.length_append, List.length_singleton]
    omega
  | setStreams s i o =>
    cases hs : w.heap[s]? with
    | none => simp [step, hs] at h
    | some x =>
      simp only [step, hs, Except.ok.injEq] at h
      rw [← h]
      refine ⟨hi.closedEmpty, hi.openMap, hi.openChan, ?_⟩
      intro q hq
      have := hi.valid q hq
      simp only [List.length_set]
      exact this

theorem new_inv (self : Nat) : Inv (NewSessionManager self) := by
  refine ⟨?_, ?_, ?_, ?_⟩
  · intro h
    simp [NewSessionManager] at h
  · intro _
    exact ⟨∅, rfl⟩
  · intro _
    exact ⟨0, rfl, rfl⟩
  · intro q hq
    simp [NewSessionManager, mapMake, mapValues] at hq

theorem runOps_inv {fails : Nat → Bool} :
    ∀ (ops : List Op) (w w1 : World), Inv w → runOps fails w ops = .ok w1 → Inv w1
  | [], w, w1, hi, h => by
    simp only [runOps, Except.ok.injEq] at h
    rw [← h]
    exact hi
  | op :: ops, w, w1, hi, h => by
    cases hs : step fails w op with
    | error f => simp [runOps, hs] at h
    | ok w2 =>
      simp only [runOps, hs] at h
      exact runOps_inv ops w2 w1 (step_inv hi hs) h

theorem reachable_inv {fails : Nat → Bool} {self : Nat} {w : World}
    (h : Reachable fails self w) : Inv w := by
  obtain ⟨ops, hops⟩ := h
  exact runOps_inv ops _ _ (new_inv self) hops

theorem step_closed_mgr {fails : Nat → Bool} {w w1 : World} {op : Op}
    (hc : w.mgr.closed = true) (h : step fails w op = .ok w1) : w1.mgr = w.mgr := by
  cases op with
  | allocate =>
    simp only [step, allocate_closed hc, Except.map, Except.ok.injEq] at h
    rw [← h]
  | add s =>
    simp only [step, SessionManager.Add, hc, if_true, Except.ok.injEq] at h
    rw [← h]
  | remove id =>
    simp only [step, SessionManager.Remove, hc, if_true, Except.ok.injEq] at h
    rw [← h]
  | get id =>
    simp only [step, Except.ok.injEq] at h
    rw [← h]
  | size =>
    simp only [step, Except.ok.injEq] at h
    rw [← h]
  | count =>
    simp only [step, Except.ok.injEq] at h
    rw [← h]
  | closed =>
    simp only [step, Except.ok.injEq] at h
    rw [← h]
  | closeIfNoSession =>
    simp only [step, SessionManager.CloseIfNoSession, hc, if_true, Except.ok.injEq] at h
    rw [← h]
  | close =>
    simp only [step, close_closed hc, Except.map, Except.ok.injEq] at h
    rw [← h]
  | sessionClose s =>
    cases hr : Session.Close fails w s with
    | error f => simp [step, hr, Except.map] at h
    | ok r =>
      simp only [step, hr, Except.map, Except.ok.injEq] at h
      obtain ⟨_, x, a, _, _, hw⟩ := sessionClose_ok_shape hr
      rw [← h]
      rcases hw with ⟨_, hw⟩ | ⟨_, hw⟩
      · rw [hw]
        simp [SessionManager.Remove, hc]
      · rw [hw]
  | newSession s =>
    simp only [step, Except.ok.injEq] at h
    rw [← h]
  | setStreams s i o =>
    cases hs : w.heap[s]? with
    | none => simp [step, hs] at h
    | some x =>
      simp only [step, hs, Except.ok.injEq] at h
      rw [← h]

theorem runOps_closed_mgr {fails : Nat → Bool} :
    ∀ (ops : List Op) (w w1 : World), w.mgr.closed = true →
      runOps fails w ops = .ok w1 → w1.mgr = w.mgr
  | [], w, w1, _, h => by
    simp only [runOps, Except.ok.injEq] at h
    rw [← h]
  | op :: ops, w, w1, hc, h => by
    cases hs : step fails w op with
    | error f => simp [runOps, hs] at h
    | ok w2 =>
      simp only [runOps, hs] at h
      have h2 := step_closed_mgr hc hs
      have hc2 : w2.mgr.closed = true := by rw [h2]; exact hc
      rw [runOps_closed_mgr ops w2 w1 hc2 h, h2]

theorem get_registered {w : World} {id p : Nat} (h : SessionManager.Get w id = (some p, true)) :
    p ∈ mapValues w.mgr.sessions := by
  cases hc : w.mgr.closed with
  | true => simp [SessionManager.Get, hc] at h
  | false =>
    cases hm : w.mgr.sessions with
    | none => simp [SessionManager.Get, hc, hm, mapGet] at h
    | some m =>
      cases hl : m.lookup id with
      | none => simp [SessionManager.Get, hc, hm, mapGet, hl] at h
      | some q =>
        simp only [SessionManager.Get, hc, hm, mapGet, hl, Bool.false_eq_true, if_false,
          Prod.mk.injEq, Option.some.injEq, and_true] at h
        subst h
        have hmem : Sigma.mk id q ∈ m.entries := AList.mem_lookup_iff.mp hl
        simp only [mapValues, List.mem_map]
        exact ⟨⟨id, q⟩, hmem, rfl⟩

theorem registered_get {w : World} {p : Nat} (hc : w.mgr.closed = false)
    (h : p ∈ mapValues w.mgr.sessions) : ∃ id, SessionManager.Get w id = (some p, true) := by
  cases hm : w.mgr.sessions with
  | none => simp [hm, mapValues] at h
  | some m =>
    rw [hm] at h
    simp only [mapValues, List.mem_map] at h
    obtain ⟨⟨id, q⟩, hmem, hq⟩ := h
    simp only at hq
    subst hq
    have hl : m.lookup id = some q := AList.mem_lookup_iff.mpr hmem
    exact ⟨id, by simp [SessionManager.Get, hc, hm, mapGet, hl]⟩

theorem allocate_open_facts {w : World} {m : AList (fun _ : Nat => Nat)}
    (hc : w.mgr.closed = false) (hm : w.mgr.sessions = some m) :
    ∃ w1, SessionManager.Allocate w = .ok (w1, some w.heap.length) ∧
      w1.mgr.closed = false ∧
      w1.mgr.sessions = some (m.insert ((w.mgr.count + 1) % 65536) w.heap.length) ∧
      w1.mgr.count = (w.mgr.count + 1) % 65536 ∧
      w1.heap.length = w.heap.length + 1 ∧
      (∀ q, q < w.heap.length → w1.heap[q]? = w.heap[q]?) ∧
      sessionID w1 w.heap.length = some ((w.mgr.count + 1) % 65536) := by
  refine ⟨_, allocate_open hc hm, hc, rfl, rfl, by simp, ?_, by simp [sessionID]⟩
  intro q hq
  exact List.getElem?_append_left hq

/-- The state after `n` calls of `Allocate` on an open registry. -/
theorem allocateN_spec : ∀ (n : Nat) (w0 : World), w0.mgr.closed = false →
    (∃ m, w0.mgr.sessions = some m) → w0.mgr.count < 65536 →
    ∃ w, allocateN n w0 = .ok (w, (List.range' w0.heap.length n).map some) ∧
      w.heap.length = w0.heap.length + n ∧
      (∀ q, q < w0.heap.length → w.heap[q]? = w0.heap[q]?) ∧
      (∀ i, i < n →
        sessionID w (w0.heap.length + i) = some ((w0.mgr.count + i + 1) % 65536)) ∧
      w.mgr.count = (w0.mgr.count + n) % 65536 ∧
      w.mgr.closed = false ∧ (∃ m, w.mgr.sessions = some m)
  | 0, w0, hc, hm, hlt => by
    refine ⟨w0, by simp [allocateN], by simp, fun _ _ => rfl, ?_, ?_, hc, hm⟩
    · intro i hi
      exact absurd hi (Nat.not_lt_zero i)
    · simp only [Nat.add_zero]
      exact (Nat.mod_eq_of_lt hlt).symm
  | n + 1, w0, hc, hm, hlt => by
    obtain ⟨m, hm⟩ := hm
    obtain ⟨w1, ha, h1c, h1ms, h1n, h1l, h1h, h1s⟩ := allocate_open_facts hc hm
    have h1m : ∃ m1, w1.mgr.sessions = some m1 := ⟨_, h1ms⟩
    have h1lt : w1.mgr.count < 65536 := by
      rw [h1n]
      exact Nat.mod_lt _ (by decide)
    obtain ⟨w, hrun, hlen, hkeep, hids, hcnt, hcl, hmap⟩ := allocateN_spec n w1 h1c h1m h1lt
    refine ⟨w, ?_, ?_, ?_, ?_, ?_, hcl, hmap⟩
    · simp only [allocateN, ha, hrun, h1l, List.range'_succ, List.map_cons]
    · rw [hlen, h1l]
      omega
    · intro q hq
      rw [hkeep q (by omega), h1h q hq]
    · intro i hi
      cases i with
      | zero =>
        have := hkeep w0.heap.length (by omega)
        simp only [sessionID, Nat.add_zero] at h1s ⊢
        rw [this]
        exact h1s
      | succ j =>
        have := hids j (by omega)
        rw [h1l, h1n] at this
        have he : w0.heap.length + (j + 1) = w0.heap.length + 1 + j := by omega
        rw [he, this]
        congr 1
        omega
    · rw [hcnt, h1n]
      omega

/-- While the counter stays below its wrap-around every `Allocate` adds an entry. -/
theorem allocateN_size : ∀ (n : Nat) (w0 w : World) (rs : List (Option Nat))
    (m0 : AList (fun _ : Nat => Nat)), w0.mgr.closed = false → w0.mgr.sessions = some m0 →
    (∀ k, k ∈ m0 → k ≤ w0.mgr.count) → w0.mgr.count + n ≤ 65535 →
    allocateN n w0 = .ok (w, rs) → mapLen w.mgr.sessions = mapLen w0.mgr.sessions + n
  | 0, w0, w, rs, m0, _, _, _, _, h => by
    simp only [allocateN, Except.ok.injEq, Prod.mk.injEq] at h
    rw [← h.1]
    rfl
  | n + 1, w0, w, rs, m0, hc, hm, hk, hb, h => by
    obtain ⟨w1, ha, h1c, h1m, h1n, _, _, _⟩ := allocate_open_facts hc hm
    have hmod : (w0.mgr.count + 1) % 65536 = w0.mgr.count + 1 :=
      Nat.mod_eq_of_lt (by omega)
    rw [hmod] at h1m h1n
    have hnew : w0.mgr.count + 1 ∉ m0 := by
      intro hmem
      have := hk _ hmem
      omega
    simp only [allocateN, ha] at h
    cases hr : allocateN n w1 with
    | error f => simp [hr] at h
    | ok r =>
      obtain ⟨w2, rs2⟩ := r
      simp only [hr, Except.ok.injEq, Prod.mk.injEq] at h
      have h1k : ∀ k, k ∈ m0.insert (w0.mgr.count + 1) w0.heap.length → k ≤ w1.mgr.count := by
        intro k hmem
        rw [h1n]
        rcases (AList.mem_insert m0).mp hmem with he | he
        · omega
        · have := hk k he
          omega
      have ih := allocateN_size n w1 w2 rs2 _ h1c h1m h1k (by omega) hr
      rw [← h.1, ih, h1m, hm]
      simp only [mapLen, AList.insert_entries_of_neg hnew, List.length_cons]
      omega

theorem runOps_allocate {fails : Nat → Bool} : ∀ (n : Nat) (w0 w : World)
    (rs : List (Option Nat)), allocateN n w0 = .ok (w, rs) →
    runOps fails w0 (List.replicate n Op.allocate) = .ok w
  | 0, w0, w, rs, h => by
    simp only [allocateN, Except.ok.injEq, Prod.mk.injEq] at h
    simp [runOps, h.1]
  | n + 1, w0, w, rs, h => by
    cases ha : SessionManager.Allocate w0 with
    | error f => simp [allocateN, ha] at h
    | ok r =>
      obtain ⟨w1, r1⟩ := r
      cases hr : allocateN n w1 with
      | error f => simp [allocateN, ha, hr] at h
      | ok r2 =>
        obtain ⟨w2, rs2⟩ := r2
        simp only [allocateN, ha, hr, Except.ok.injEq, Prod.mk.injEq] at h
        simp only [List.replicate_succ, runOps, step, ha, Except.map]
        rw [← h.1]
        exact runOps_allocate n w1 w2 rs2 hr

theorem allocOnly_trace {w : World} {k : Nat} (tr : List Event) (h : AllocOnly w k) :
    AllocOnly { w with trace := tr } k :=
  ⟨h.isOpen, h.hasMap, h.heapLen, h.ids, h.counter⟩

theorem allocOnly_remove {w : World} {k : Nat} (id : Nat) (h : AllocOnly w k) :
    AllocOnly (SessionManager.Remove w id) k := by
  have hc := h.isOpen
  obtain ⟨m, hm⟩ := h.hasMap
  simp only [SessionManager.Remove, hc, Bool.false_eq_true, if_false]
  refine ⟨rfl, ?_, h.heapLen, h.ids, h.counter⟩
  by_cases hz : mapLen (mapDelete w.mgr.sessions id) = 0
  · exact ⟨∅, by simp [hz, mapMake]⟩
  · refine ⟨m.erase id, ?_⟩
    rw [hm] at hz
    simp only [mapDelete] at hz
    simp only [hm, mapDelete, hz, if_false]

theorem allocOnly_allocate {w w1 : World} {k : Nat} {r : Option Nat} (h : AllocOnly w k)
    (ha : SessionManager.Allocate w = .ok (w1, r)) :
    AllocOnly w1 (k + 1) ∧ r = some k ∧
      sessionID w1 k = some ((k + 1) % 65536) ∧
      ∀ q, q < k → sessionID w1 q = some ((q + 1) % 65536) := by
  obtain ⟨m, hm⟩ := h.hasMap
  obtain ⟨w2, ha2, h1c, h1m, h1n, h1l, h1h, h1s⟩ := allocate_open_facts h.isOpen hm
  rw [ha2] at ha
  simp only [Except.ok.injEq, Prod.mk.injEq] at ha
  obtain ⟨hw, hr⟩ := ha
  subst hw
  have hlen := h.heapLen
  have hcnt := h.counter
  have hk : sessionID w2 k = some ((k + 1) % 65536) := by
    rw [hlen, hcnt] at h1s
    rw [h1s]
    congr 1
    omega
  have hq : ∀ q, q < k → sessionID w2 q = some ((q + 1) % 65536) := by
    intro q hq
    have := h.ids q hq
    simp only [sessionID] at this ⊢
    rw [h1h q (by omega)]
    exact this
  refine ⟨⟨h1c, ⟨_, h1m⟩, by omega, ?_, ?_⟩, by rw [← hr, hlen], hk, hq⟩
  · intro i hi
    by_cases hik : i = k
    · rw [hik]
      exact hk
    · exact hq i (by omega)
  · rw [h1n, hcnt]
    omega

theorem allocOnly_step {fails : Nat → Bool} {w w1 : World} {k : Nat} {op : Op}
    (h : AllocOnly w k) (hop : Op.allocOrRelease op = true)
    (hs : step fails w op = .ok w1) : AllocOnly w1 (k + List.count Op.allocate [op]) := by
  cases op with
  | allocate =>
    cases hr : SessionManager.Allocate w with
    | error f => simp [step, hr, Except.map] at hs
    | ok r =>
      simp only [step, hr, Except.map, Except.ok.injEq] at hs
      rw [← hs]
      simpa using (allocOnly_allocate h hr).1
  | remove id =>
    simp only [step, Except.ok.injEq] at hs
    rw [← hs]
    simpa using allocOnly_remove id h
  | sessionClose p =>
    cases hr : Session.Close fails w p with
    | error f => simp [step, hr, Except.map] at hs
    | ok r =>
      simp only [step, hr, Except.map, Except.ok.injEq] at hs
      obtain ⟨_, x, a, _, _, hw⟩ := sessionClose_ok_shape hr
      rw [← hs]
      rcases hw with ⟨_, hw⟩ | ⟨_, hw⟩
      · rw [hw]
        simpa using allocOnly_remove x.ID (allocOnly_trace _ h)
      · rw [hw]
        simpa using allocOnly_trace _ h
  | add s => simp [Op.allocOrRelease] at hop
  | get id => simp [Op.allocOrRelease] at hop
  | size => simp [Op.allocOrRelease] at hop
  | count => simp [Op.allocOrRelease] at hop
  | closed => simp [Op.allocOrRelease] at hop
  | closeIfNoSession => simp [Op.allocOrRelease] at hop
  | close => simp [Op.allocOrRelease] at hop
  | newSession s => simp [Op.allocOrRelease] at hop
  | setStreams s i o => simp [Op.allocOrRelease] at hop

theorem allocOnly_runOps {fails : Nat → Bool} : ∀ (ops : List Op) (w w1 : World) (k : Nat),
    AllocOnly w k → (∀ op ∈ ops, Op.allocOrRelease op = true) →
    runOps fails w ops = .ok w1 → AllocOnly w1 (k + List.count Op.allocate ops)
  | [], w, w1, k, h, _, hr => by
    simp only [runOps, Except.ok.injEq] at hr
    rw [← hr]
    simpa using h
  | op :: ops, w, w1, k, h, hall, hr => by
    cases hs : step fails w op with
    | error f => simp [runOps, hs] at hr
    | ok w2 =>
      simp only [runOps, hs] at hr
      have h2 := allocOnly_step h (hall op (List.mem_cons_self _ _)) hs
      have h3 := allocOnly_runOps ops w2 w1 _ h2
        (fun o ho => hall o (List.mem_cons_of_mem _ ho)) hr
      have he : k + List.count Op.allocate (op :: ops) =
          k + List.count Op.allocate [op] + List.count Op.allocate ops := by
        have : op :: ops = [op] ++ ops := rfl
        rw [this, List.count_append]
        omega
      rw [he]
      exact h3

theorem allocOnly_new (self : Nat) : AllocOnly (NewSessionManager self) 0 :=
  ⟨rfl, ⟨∅, rfl⟩, rfl, fun i hi => absurd hi (Nat.not_lt_zero i), rfl⟩

/-- C1. For every `N ≤ 65535`, `N` calls of `Allocate` on a new registry all return:
call number `i + 1` returns a non-nil session whose ID is `i + 1`, so the IDs are
`1, 2, ..., N` in call order, and afterwards `Count()` and `Size()` are both `N`. -/
theorem allocate_ids_in_order (self N : Nat) (hN : N ≤ 65535) :
    ∃ w rs, allocateN N (NewSessionManager self) = .ok (w, rs) ∧
      rs.length = N ∧
      (∀ i, i < N → ∃ p, rs[i]? = some (some p) ∧ sessionID w p = some (i + 1)) ∧
      SessionManager.Count w = N ∧ SessionManager.Size w = N := by
  obtain ⟨w, hrun, _, _, hids, hcnt, _, _⟩ :=
    allocateN_spec N (NewSessionManager self) rfl ⟨∅, rfl⟩ (by simp [NewSessionManager])
  have hsize := allocateN_size N (NewSessionManager self) w _ ∅ rfl rfl
    (fun k hk => absurd hk (AList.not_mem_empty k)) (by simpa [NewSessionManager] using hN) hrun
  refine ⟨w, _, hrun, by simp, ?_, ?_, ?_⟩
  · intro i hi
    refine ⟨i, ?_, ?_⟩
    · simp [NewSessionManager, List.getElem?_range', hi]
    · have := hids i hi
      simp only [NewSessionManager, List.length_nil, Nat.zero_add] at this
      rw [this]
      congr 1
      omega
  · simp only [SessionManager.Count, hcnt, NewSessionManager]
    omega
  · simp only [SessionManager.Size, hsize]
    simp [NewSessionManager, mapMake, mapLen]

theorem allocate_ids_in_order_witness :
    3 ≤ 65535 ∧
    ∃ w rs, allocateN 3 (NewSessionManager 0) = .ok (w, rs) ∧
      rs.length = 3 ∧
      (∀ i, i < 3 → ∃ p, rs[i]? = some (some p) ∧ sessionID w p = some (i + 1)) ∧
      SessionManager.Count w = 3 ∧ SessionManager.Size w = 3 :=
  ⟨by decide, allocate_ids_in_order 0 3 (by decide)⟩

/-- C2. On every state a registry can reach, `CloseIfNoSession` returns true and leaves
the registry closed exactly when `Size()` was 0 before the call; when `Size()` was not 0
it returns false and changes nothing at all. -/
theorem closeIfNoSession_iff_empty (fails : Nat → Bool) (self : Nat) (w : World)
    (hr : Reachable fails self w) :
    (((SessionManager.CloseIfNoSession w).2 = true ∧
        SessionManager.Closed (SessionManager.CloseIfNoSession w).1 = true) ↔
      SessionManager.Size w = 0) ∧
    (SessionManager.Size w ≠ 0 →
      (SessionManager.CloseIfNoSession w).2 = false ∧
      (SessionManager.CloseIfNoSession w).1 = w) := by
  have hi := reachable_inv hr
  cases hc : w.mgr.closed with
  | true =>
    have hz := hi.closedEmpty hc
    simp [SessionManager.CloseIfNoSession, SessionManager.Closed, SessionManager.Size, hc, hz]
  | false =>
    by_cases hz : mapLen w.mgr.sessions = 0
    · simp [SessionManager.CloseIfNoSession, SessionManager.Closed, SessionManager.Size, hc, hz]
    · simp [SessionManager.CloseIfNoSession, SessionManager.Closed, SessionManager.Size, hc, hz]

theorem closeIfNoSession_iff_empty_witness :
    Reachable (fun _ => false) 0 oneSession ∧
    ((((SessionManager.CloseIfNoSession oneSession).2 = true ∧
        SessionManager.Closed (SessionManager.CloseIfNoSession oneSession).1 = true) ↔
      SessionManager.Size oneSession = 0) ∧
    (SessionManager.Size oneSession ≠ 0 →
      (SessionManager.CloseIfNoSession oneSession).2 = false ∧
      (SessionManager.CloseIfNoSession oneSession).1 = oneSession)) :=
  ⟨⟨oneSessionOps, rfl⟩,
    closeIfNoSession_iff_empty (fun _ => false) 0 oneSession ⟨oneSessionOps, rfl⟩⟩

/-- C3. On a closed registry `Allocate` returns nil and `Add` inserts nothing: both leave
the whole state (so `Size`, `Count` and `Closed`) as it was, and `Get` keeps reporting
not-found for every ID. -/
theorem closed_rejects_allocate_and_add (w : World) (h : w.mgr.closed = true) :
    SessionManager.Allocate w = .ok (w, none) ∧
    (∀ s, SessionManager.Add w s = .ok w) ∧
    (∀ id, SessionManager.Get w id = (none, false)) := by
  refine ⟨?_, ?_, ?_⟩
  · simp [SessionManager.Allocate, h]
  · intro s
    simp [SessionManager.Add, h]
  · intro id
    simp [SessionManager.Get, h]

theorem closed_rejects_allocate_and_add_witness :
    (oneSessionClosed false).mgr.closed = true ∧
    (SessionManager.Allocate (oneSessionClosed false) = .ok (oneSessionClosed false, none) ∧
     (∀ s, SessionManager.Add (oneSessionClosed false) s = .ok (oneSessionClosed false)) ∧
     (∀ id, SessionManager.Get (oneSessionClosed false) id = (none, false))) :=
  ⟨rfl, closed_rejects_allocate_and_add (oneSessionClosed false) rfl⟩

/-- C4. Once `SessionManager.Close` has returned, `Get` reports not-found for every ID,
and it still does so after any further sequence of calls. -/
theorem get_not_found_after_close (fails : Nat → Bool) (w w1 w2 : World) (e : Bool)
    (ops : List Op) (h : SessionManager.Close fails w = .ok (w1, e))
    (hops : runOps fails w1 ops = .ok w2) (id : Nat) :
    SessionManager.Get w2 id = (none, false) := by
  obtain ⟨_, hcl, _⟩ := close_ok_shape h
  have hm := runOps_closed_mgr ops w1 w2 hcl hops
  simp [SessionManager.Get, hm, hcl]

theorem get_not_found_after_close_witness :
    SessionManager.Close (fun _ => false) oneSession = .ok (oneSessionClosed false, false) ∧
    runOps (fun _ => false) (oneSessionClosed false) lateOps = .ok oneSessionLate ∧
    SessionManager.Get oneSessionLate 1 = (none, false) :=
  ⟨rfl, rfl,
    get_not_found_after_close (fun _ => false) oneSession (oneSessionClosed false)
      oneSessionLate false lateOps rfl rfl 1⟩

/-- C5. `SessionManager.Close` on an open registry (in any state it can reach) returns
without an error, whatever closes fail.  After the close of the request channel its
effects `evs` contain the close of the input and of the output of every session that
`Get` returned before the call (a nil stream has nothing to close), and every effect in
`evs` is the close of the input or the output of such a session.  No `Session` object is
changed. -/
theorem close_closes_registered_streams (fails : Nat → Bool) (self : Nat) (w : World)
    (hr : Reachable fails self w) (ho : SessionManager.Closed w = false) :
    ∃ w1 c evs, SessionManager.Close fails w = .ok (w1, false) ∧
      w1.trace = w.trace ++ Event.closeChan c :: evs ∧ w1.heap = w.heap ∧
      (∀ id p, SessionManager.Get w id = (some p, true) →
        ∃ s, w.heap[p]? = some s ∧
          (∀ r, s.input = some r → Event.closeStream r (fails r) ∈ evs) ∧
          (∀ r, s.output = some r → Event.closeStream r (fails r) ∈ evs)) ∧
      (∀ ev ∈ evs, ∃ id p s, SessionManager.Get w id = (some p, true) ∧
        w.heap[p]? = some s ∧
        ∃ r, (s.input = some r ∨ s.output = some r) ∧
          ev = Event.closeStream r (fails r)) := by
  have hi := reachable_inv hr
  have hc : w.mgr.closed = false := ho
  obtain ⟨c, hrc, hch⟩ := hi.openChan hc
  obtain ⟨evs, hca, hev⟩ := closeAll_spec fails w.heap (mapValues w.mgr.sessions)
    (w.trace ++ [Event.closeChan c]) hi.valid
  refine ⟨_, c, evs, close_open hc hrc hch hca, ?_, rfl, ?_, ?_⟩
  · simp
  · intro id p hg
    have hp := get_registered hg
    have hlt := hi.valid p hp
    refine ⟨w.heap[p], List.getElem?_eq_getElem hlt, ?_, ?_⟩
    · intro r hin
      exact (hev _).mpr ⟨p, hp, _, List.getElem?_eq_getElem hlt, r, Or.inl hin, rfl⟩
    · intro r hout
      exact (hev _).mpr ⟨p, hp, _, List.getElem?_eq_getElem hlt, r, Or.inr hout, rfl⟩
  · intro ev hmem
    obtain ⟨p, hp, s, hs, r, hr2, he⟩ := (hev ev).mp hmem
    obtain ⟨id, hg⟩ := registered_get hc hp
    exact ⟨id, p, s, hg, hs, r, hr2, he⟩

theorem close_closes_registered_streams_witness :
    Reachable (fun _ => true) 0 oneSession ∧ SessionManager.Closed oneSession = false ∧
    ∃ w1 c evs, SessionManager.Close (fun _ => true) oneSession = .ok (w1, false) ∧
      w1.trace = oneSession.trace ++ Event.closeChan c :: evs ∧ w1.heap = oneSession.heap ∧
      (∀ id p, SessionManager.Get oneSession id = (some p, true) →
        ∃ s, oneSession.heap[p]? = some s ∧
          (∀ r, s.input = some r → Event.closeStream r true ∈ evs) ∧
          (∀ r, s.output = some r → Event.closeStream r true ∈ evs)) ∧
      (∀ ev ∈ evs, ∃ id p s, SessionManager.Get oneSession id = (some p, true) ∧
        oneSession.heap[p]? = some s ∧
        ∃ r, (s.input = some r ∨ s.output = some r) ∧ ev = Event.closeStream r true) :=
  ⟨⟨oneSessionOps, rfl⟩, rfl,
    close_closes_registered_streams (fun _ => true) 0 oneSession ⟨oneSessionOps, rfl⟩ rfl⟩

/-- C6. A second `Close` right after a first one that returned gives no error, does not
panic and leaves the state, the channel table and the trace of effects exactly as the
first call left them. -/
theorem close_twice (fails : Nat → Bool) (w w1 : World) (e : Bool)
    (h : SessionManager.Close fails w = .ok (w1, e)) :
    e = false ∧ SessionManager.Close fails w1 = .ok (w1, false) := by
  have hc : w1.mgr.closed = true ∧ e = false := by
    cases hcl : w.mgr.closed with
    | true =>
      simp only [SessionManager.Close, hcl, if_true, Except.ok.injEq, Prod.mk.injEq] at h
      obtain ⟨h1, h2⟩ := h
      subst h1
      exact ⟨hcl, h2.symm⟩
    | false =>
      cases hcc : closeChan w.chans w.mgr.requestChan with
      | error f => simp [SessionManager.Close, hcl, hcc] at h
      | ok chans =>
        cases hca : closeAll fails w.heap (mapValues w.mgr.sessions)
            (w.trace ++ chanEvents w.mgr.requestChan) with
        | error f => simp [SessionManager.Close, hcl, hcc, hca] at h
        | ok tr =>
          simp only [SessionManager.Close, hcl, hcc, hca, Bool.false_eq_true, if_false,
            Except.ok.injEq, Prod.mk.injEq] at h
          obtain ⟨h1, h2⟩ := h
          subst h1
          exact ⟨rfl, h2.symm⟩
  refine ⟨hc.2, ?_⟩
  simp [SessionManager.Close, hc.1]

theorem close_twice_witness :
    SessionManager.Close (fun _ => true) oneSession = .ok (oneSessionClosed true, false) ∧
    (false = false ∧
     SessionManager.Close (fun _ => true) (oneSessionClosed true) =
       .ok (oneSessionClosed true, false)) :=
  ⟨rfl, close_twice (fun _ => true) oneSession (oneSessionClosed true) false rfl⟩

/-- C7. `Remove` of an ID for which `Get` reports not-found changes nothing that can be
observed: `Size`, `Count`, `Closed` and every `Get` are as before, also when the empty
mapping is made anew. -/
theorem remove_absent_noop (w : World) (id : Nat)
    (h : (SessionManager.Get w id).2 = false) :
    SessionManager.Size (SessionManager.Remove w id) = SessionManager.Size w ∧
    SessionManager.Count (SessionManager.Remove w id) = SessionManager.Count w ∧
    SessionManager.Closed (SessionManager.Remove w id) = SessionManager.Closed w ∧
    (∀ j, SessionManager.Get (SessionManager.Remove w id) j = SessionManager.Get w j) := by
  cases hc : w.mgr.closed with
  | true => simp [SessionManager.Remove, hc]
  | false =>
    have hg : (mapGet w.mgr.sessions id).2 = false := by
      simpa [SessionManager.Get, hc] using h
    have hd := mapDelete_of_not_found hg
    by_cases hz : mapLen w.mgr.sessions = 0
    · refine ⟨?_, ?_, ?_, ?_⟩
      · simp only [SessionManager.Remove, SessionManager.Size, hc, hd, hz]
        rfl
      · simp [SessionManager.Remove, SessionManager.Count, hc]
      · simp [SessionManager.Remove, SessionManager.Closed, hc]
      · intro j
        simp [SessionManager.Remove, SessionManager.Get, hc, hd, hz, mapGet_make,
          mapLen_eq_zero_get hz]
    · refine ⟨?_, ?_, ?_, ?_⟩
      · simp [SessionManager.Remove, SessionManager.Size, hc, hd, hz]
      · simp [SessionManager.Remove, SessionManager.Count, hc]
      · simp [SessionManager.Remove, SessionManager.Closed, hc]
      · intro j
        simp [SessionManager.Remove, SessionManager.Get, hc, hd, hz]


theorem remove_absent_noop_witness :
    (SessionManager.Get twoReleased 1).2 = false ∧
    (SessionManager.Size (SessionManager.Remove twoReleased 1) = SessionManager.Size twoReleased ∧
     SessionManager.Count (SessionManager.Remove twoReleased 1) =
       SessionManager.Count twoReleased ∧
     SessionManager.Closed (SessionManager.Remove twoReleased 1) =
       SessionManager.Closed twoReleased ∧
     (∀ j, SessionManager.Get (SessionManager.Remove twoReleased 1) j =
       SessionManager.Get twoReleased j)) :=
  ⟨rfl, remove_absent_noop twoReleased 1 rfl⟩

/-- C8. On every open registry (in any state it can reach) with counter `c`, `Allocate`
returns, without a panic, a session whose ID is `(c + 1) mod 65536`, and `Count()`
becomes that value: with the counter at 65535 the session gets ID 0 and `Count()` is 0. -/
theorem allocate_id_wraps (fails : Nat → Bool) (self : Nat) (w : World)
    (hr : Reachable fails self w) (ho : SessionManager.Closed w = false) :
    ∃ w1 p, SessionManager.Allocate w = .ok (w1, some p) ∧
      sessionID w1 p = some ((SessionManager.Count w + 1) % 65536) ∧
      SessionManager.Count w1 = (SessionManager.Count w + 1) % 65536 ∧
      (SessionManager.Count w = 65535 →
        sessionID w1 p = some 0 ∧ SessionManager.Count w1 = 0) := by
  have hi := reachable_inv hr
  have hc : w.mgr.closed = false := ho
  obtain ⟨m, hm⟩ := hi.openMap hc
  refine ⟨_, _, allocate_open hc hm, ?_, rfl, ?_⟩
  · simp [sessionID, SessionManager.Count]
  · intro h65
    simp only [SessionManager.Count] at h65
    simp [sessionID, SessionManager.Count, h65]

theorem allocate_id_wraps_witness :
    (Reachable (fun _ => false) 0 oneSession ∧ SessionManager.Closed oneSession = false ∧
      ∃ w1 p, SessionManager.Allocate oneSession = .ok (w1, some p) ∧
        sessionID w1 p = some ((SessionManager.Count oneSession + 1) % 65536) ∧
        SessionManager.Count w1 = (SessionManager.Count oneSession + 1) % 65536 ∧
        (SessionManager.Count oneSession = 65535 →
          sessionID w1 p = some 0 ∧ SessionManager.Count w1 = 0)) ∧
    (∃ w, runOps (fun _ => false) (NewSessionManager 0)
          (List.replicate 65535 Op.allocate) = .ok w ∧
        SessionManager.Count w = 65535 ∧
        ∃ w1 p, SessionManager.Allocate w = .ok (w1, some p) ∧
          sessionID w1 p = some 0 ∧ SessionManager.Count w1 = 0) := by
  refine ⟨⟨⟨oneSessionOps, rfl⟩, rfl,
    allocate_id_wraps (fun _ => false) 0 oneSession ⟨oneSessionOps, rfl⟩ rfl⟩, ?_⟩
  obtain ⟨w, hrun, _, _, _, hcnt, hcl, _⟩ :=
    allocateN_spec 65535 (NewSessionManager 0) rfl ⟨∅, rfl⟩ (by decide)
  have hr : runOps (fun _ => false) (NewSessionManager 0)
      (List.replicate 65535 Op.allocate) = .ok w := runOps_allocate 65535 _ w _ hrun
  have hc : SessionManager.Count w = 65535 := hcnt
  obtain ⟨w1, p, ha, _, _, h65⟩ := allocate_id_wraps (fun _ => false) 0 w ⟨_, hr⟩ hcl
  exact ⟨w, hr, hc, w1, p, ha, h65 hc⟩

/-- C9, counterexample. After 65536 calls of `Allocate` on a new registry (nothing is
ever closed or removed) the next `Allocate` returns the session at pointer 65536 with
ID 1, the ID that the first allocated session, at pointer 0, still carries. -/
theorem allocate_id_collides_after_wrap :
    ∃ w w1, runOps (fun _ => false) (NewSessionManager 0)
        (List.replicate 65536 Op.allocate) = .ok w ∧
      SessionManager.Allocate w = .ok (w1, some 65536) ∧
      sessionID w1 0 = some 1 ∧ sessionID w1 65536 = some 1 := by
  obtain ⟨w, hrun, hlen, _, hids, hcnt, hcl, m, hm⟩ :=
    allocateN_spec 65536 (NewSessionManager 0) rfl ⟨∅, rfl⟩ (by decide)
  obtain ⟨w1, ha, _, _, _, _, hkeep, hnew⟩ := allocate_open_facts hcl hm
  have hl : w.heap.length = 65536 := hlen
  have hc : w.mgr.count = 0 := hcnt
  rw [hl] at ha hkeep hnew
  rw [hc] at hnew
  refine ⟨w, w1, runOps_allocate 65536 _ w _ hrun, ha, ?_, hnew⟩
  have h0 := hids 0 (by decide)
  simp only [sessionID] at h0 ⊢
  rw [hkeep 0 (by decide)]
  exact h0

/-- C9, amended. In every state reached from a new registry by `Allocate`, `Remove` and
`Session.Close` alone, however many calls there were, the next `Allocate` returns the
session `p` whose number is the count of the earlier `Allocate` calls (session `q` is the
one returned by `Allocate` call number `q + 1`), and its ID differs from the ID of every
session `q` allocated by one of the 65535 preceding `Allocate` calls, released or not:
only a session 65536 or more allocations old can carry the same ID. -/
theorem allocate_id_fresh_within_window (fails : Nat → Bool) (self : Nat) (ops : List Op)
    (w : World) (hall : ∀ op ∈ ops, Op.allocOrRelease op = true)
    (hrun : runOps fails (NewSessionManager self) ops = .ok w) :
    ∃ w1 p, SessionManager.Allocate w = .ok (w1, some p) ∧
      p = List.count Op.allocate ops ∧
      ∀ q, q ≠ p → p < q + 65536 → sessionID w1 q ≠ sessionID w1 p := by
  have h := allocOnly_runOps ops _ w 0 (allocOnly_new self) hall hrun
  simp only [Nat.zero_add] at h
  generalize List.count Op.allocate ops = k at h
  obtain ⟨m, hm⟩ := h.hasMap
  obtain ⟨w1, ha, _⟩ := allocate_open_facts h.isOpen hm
  obtain ⟨h1, _, hk, hq⟩ := allocOnly_allocate h ha
  rw [h.heapLen] at ha
  refine ⟨w1, k, ha, rfl, ?_⟩
  intro q hne hwin
  rw [hk]
  rcases Nat.lt_or_gt_of_ne hne with hlt | hgt
  · rw [hq q hlt]
    intro he
    have := Option.some.inj he
    omega
  · have hnone : w1.heap[q]? = none := by
      apply List.getElem?_eq_none
      rw [h1.heapLen]
      omega
    simp [sessionID, hnone]

theorem allocate_id_fresh_within_window_witness :
    (∀ op ∈ releaseOps, Op.allocOrRelease op = true) ∧
    runOps (fun _ => false) (NewSessionManager 0) releaseOps = .ok twoReleased ∧
    ∃ w1 p, SessionManager.Allocate twoReleased = .ok (w1, some p) ∧
      p = List.count Op.allocate releaseOps ∧
      ∀ q, q ≠ p → p < q + 65536 → sessionID w1 q ≠ sessionID w1 p :=
  ⟨by decide, rfl,
    allocate_id_fresh_within_window (fun _ => false) 0 releaseOps twoReleased (by decide) rfl⟩

/-- C10. On every open registry (in any state it can reach) `Add(s)` returns without a
panic, keeps `s.ID`, registers `s` under `s.ID` (so `Get(s.ID)` returns `s`, whoever
was registered there before), advances `Count()` by one modulo 65536 whatever `s.ID`
is, and leaves `Get(j)` as it was for every other ID `j`. -/
theorem add_registers_under_own_id (fails : Nat → Bool) (self : Nat) (w : World)
    (p : Nat) (s : Session) (hr : Reachable fails self w)
    (ho : SessionManager.Closed w = false) (hs : w.heap[p]? = some s) :
    ∃ w1, SessionManager.Add w p = .ok w1 ∧
      sessionID w1 p = some s.ID ∧
      SessionManager.Get w1 s.ID = (some p, true) ∧
      SessionManager.Count w1 = (SessionManager.Count w + 1) % 65536 ∧
      (∀ j, j ≠ s.ID → SessionManager.Get w1 j = SessionManager.Get w j) := by
  have hi := reachable_inv hr
  have hc : w.mgr.closed = false := ho
  obtain ⟨m, hm⟩ := hi.openMap hc
  have hp : p < w.heap.length := by
    rcases List.getElem?_eq_some_iff.mp hs with ⟨hlt, _⟩
    exact hlt
  refine ⟨_, add_open hc hm hs, ?_, ?_, rfl, ?_⟩
  · simp [sessionID, hp]
  · simp [SessionManager.Get, hc, mapGet]
  · intro j hj
    simp [SessionManager.Get, hc, hm, mapGet, AList.lookup_insert_ne hj]

theorem add_registers_under_own_id_witness :
    Reachable (fun _ => false) 0 withOwnSession ∧
    SessionManager.Closed withOwnSession = false ∧
    withOwnSession.heap[1]? = some ownSession ∧
    ∃ w1, SessionManager.Add withOwnSession 1 = .ok w1 ∧
      sessionID w1 1 = some ownSession.ID ∧
      SessionManager.Get w1 ownSession.ID = (some 1, true) ∧
      SessionManager.Count w1 = (SessionManager.Count withOwnSession + 1) % 65536 ∧
      (∀ j, j ≠ ownSession.ID → SessionManager.Get w1 j = SessionManager.Get withOwnSession j) :=
  ⟨⟨withOwnSessionOps, rfl⟩, rfl, rfl,
    add_registers_under_own_id (fun _ => false) 0 withOwnSession 1 ownSession
      ⟨withOwnSessionOps, rfl⟩ rfl rfl⟩

/-! ## Keys and IDs -/

theorem mapGet_insert (m : AList (fun _ : Nat => Nat)) (k p j : Nat) :
    mapGet (some (m.insert k p)) j = if j = k then (some p, true) else mapGet (some m) j := by
  by_cases h : j = k
  · subst h
    simp [mapGet]
  · simp [mapGet, AList.lookup_insert_ne h, h]

theorem mapGet_delete (sm : SessionMap) (k j : Nat) :
    mapGet (mapDelete sm k) j = if j = k then (none, false) else mapGet sm j := by
  cases sm with
  | none => simp [mapDelete, mapGet]
  | some m =>
    by_cases h : j = k
    · subst h
      simp [mapDelete, mapGet]
    · simp [mapDelete, mapGet, AList.lookup_erase_ne h, h]

theorem mapGet_remade (sm : SessionMap) (j : Nat) :
    mapGet (if mapLen sm = 0 then mapMake else sm) j = mapGet sm j := by
  by_cases hz : mapLen sm = 0
  · simp only [hz, if_true, mapGet_make, mapLen_eq_zero_get hz]
  · simp only [hz, if_false]

theorem remove_heap (w : World) (id : Nat) : (SessionManager.Remove w id).heap = w.heap := by
  cases hc : w.mgr.closed <;> simp [SessionManager.Remove, hc]

theorem remove_trace (w : World) (id : Nat) :
    (SessionManager.Remove w id).trace = w.trace := by
  cases hc : w.mgr.closed <;> simp [SessionManager.Remove, hc]

theorem remove_closed (w : World) (id : Nat) :
    (SessionManager.Remove w id).mgr.closed = w.mgr.closed := by
  cases hc : w.mgr.closed <;> simp [SessionManager.Remove, hc]

theorem remove_count (w : World) (id : Nat) :
    (SessionManager.Remove w id).mgr.count = w.mgr.count := by
  cases hc : w.mgr.closed <;> simp [SessionManager.Remove, hc]

theorem mapGet_remove_open {w : World} (hc : w.mgr.closed = false) (id j : Nat) :
    mapGet (SessionManager.Remove w id).mgr.sessions j =
      if j = id then (none, false) else mapGet w.mgr.sessions j := by
  simp only [SessionManager.Remove, hc, Bool.false_eq_true, if_false]
  rw [mapGet_remade, mapGet_delete]

theorem get_remove (w : World) (id j : Nat) :
    SessionManager.Get (SessionManager.Remove w id) j =
      if j = id then (none, false) else SessionManager.Get w j := by
  cases hc : w.mgr.closed with
  | true => simp [SessionManager.Remove, SessionManager.Get, hc]
  | false =>
    have h1 := remove_closed w id
    rw [hc] at h1
    simp only [SessionManager.Get, h1, hc, Bool.false_eq_true, if_false]
    exact mapGet_remove_open hc id j

theorem mapLen_delete_found {sm : SessionMap} {k p : Nat}
    (h : mapGet sm k = (some p, true)) : mapLen (mapDelete sm k) + 1 = mapLen sm := by
  cases sm with
  | none => simp [mapGet] at h
  | some m =>
    have hmem : k ∈ m.entries.keys := by
      cases hl : m.lookup k with
      | none => simp [mapGet, hl] at h
      | some q =>
        have : k ∈ m := AList.lookup_isSome.mp (by simp [hl])
        exact AList.mem_keys.mp this
    obtain ⟨b, l1, l2, _, h2, h3⟩ := List.exists_of_kerase hmem
    simp only [mapDelete, mapLen, AList.erase, h3]
    rw [h2]
    simp only [List.length_append, List.length_cons]
    omega

theorem size_remove_found {w : World} {id p : Nat}
    (h : SessionManager.Get w id = (some p, true)) :
    SessionManager.Size (SessionManager.Remove w id) + 1 = SessionManager.Size w := by
  cases hc : w.mgr.closed with
  | true => simp [SessionManager.Get, hc] at h
  | false =>
    have hg : mapGet w.mgr.sessions id = (some p, true) := by
      simpa [SessionManager.Get, hc] using h
    have hl := mapLen_delete_found hg
    simp only [SessionManager.Size, SessionManager.Remove, hc, Bool.false_eq_true, if_false]
    by_cases hz : mapLen (mapDelete w.mgr.sessions id) = 0
    · simp only [hz, if_true]
      rw [← hl, hz]
      rfl
    · simp only [hz, if_false]
      exact hl

theorem sessionID_lt {w : World} {p k : Nat} (h : sessionID w p = some k) :
    p < w.heap.length := by
  cases hs : w.heap[p]? with
  | none => simp [sessionID, hs] at h
  | some s =>
    rcases List.getElem?_eq_some_iff.mp hs with ⟨hlt, _⟩
    exact hlt

/-- The `ID` field of a session object is never written by a call. -/
theorem step_sessionID {fails : Nat → Bool} {w w1 : World} {op : Op} {p k : Nat}
    (h : step fails w op = .ok w1) (hid : sessionID w p = some k) :
    sessionID w1 p = some k := by
  have hp := sessionID_lt hid
  cases op with
  | allocate =>
    cases hc : w.mgr.closed with
    | true =>
      simp only [step, allocate_closed hc, Except.map, Except.ok.injEq] at h
      rw [← h]
      exact hid
    | false =>
      cases hm : w.mgr.sessions with
      | none => simp [step, SessionManager.Allocate, hc, hm, mapSet, Except.map] at h
      | some m =>
        obtain ⟨w2, ha, _, _, _, _, hkeep, _⟩ := allocate_open_facts hc hm
        simp only [step, ha, Except.map, Except.ok.injEq] at h
        rw [← h]
        simp only [sessionID] at hid ⊢
        rw [hkeep p hp]
        exact hid
  | add s =>
    cases hc : w.mgr.closed with
    | true =>
      simp only [step, SessionManager.Add, hc, if_true, Except.ok.injEq] at h
      rw [← h]
      exact hid
    | false =>
      cases hs : w.heap[s]? with
      | none => simp [step, SessionManager.Add, hc, hs] at h
      | some x =>
        cases hm : w.mgr.sessions with
        | none => simp [step, SessionManager.Add, hc, hs, hm, mapSet] at h
        | some m =>
          simp only [step, add_open hc hm hs, Except.ok.injEq] at h
          rw [← h]
          simp only [sessionID] at hid ⊢
          by_cases hsp : s = p
          · subst hsp
            rw [hs] at hid
            simp only [List.getElem?_set_self hp]
            exact hid
          · simp only [List.getElem?_set_ne hsp]
            exact hid
  | remove id =>
    simp only [step, Except.ok.injEq] at h
    rw [← h]
    simp only [sessionID, remove_heap] at hid ⊢
    exact hid
  | get id =>
    simp only [step, Except.ok.injEq] at h
    rw [← h]
    exact hid
  | size =>
    simp only [step, Except.ok.injEq] at h
    rw [← h]
    exact hid
  | count =>
    simp only [step, Except.ok.injEq] at h
    rw [← h]
    exact hid
  | closed =>
    simp only [step, Except.ok.injEq] at h
    rw [← h]
    exact hid
  | closeIfNoSession =>
    simp only [step, Except.ok.injEq] at h
    rw [← h]
    simp only [sessionID, SessionManager.CloseIfNoSession] at hid ⊢
    split
    · exact hid
    · split <;> exact hid
  | close =>
    cases hr : SessionManager.Close fails w with
    | error f => simp [step, hr, Except.map] at h
    | ok r =>
      simp only [step, hr, Except.map, Except.ok.injEq] at h
      obtain ⟨_, _, hheap, _⟩ := close_ok_shape hr
      rw [← h]
      simp only [sessionID, hheap] at hid ⊢
      exact hid
  | sessionClose s =>
    cases hr : Session.Close fails w s with
    | error f => simp [step, hr, Except.map] at h
    | ok r =>
      simp only [step, hr, Except.map, Except.ok.injEq] at h
      obtain ⟨_, x, a, _, _, hw⟩ := sessionClose_ok_shape hr
      rw [← h]
      rcases hw with ⟨_, hw⟩ | ⟨_, hw⟩
      · rw [hw]
        simp only [sessionID, remove_heap] at hid ⊢
        exact hid
      · rw [hw]
        exact hid
  | newSession s =>
    simp only [step, Except.ok.injEq] at h
    rw [← h]
    simp only [sessionID] at hid ⊢
    rw [List.getElem?_append_left hp]
    exact hid
  | setStreams s i o =>
    cases hs : w.heap[s]? with
    | none => simp [step, hs] at h
    | some x =>
      simp only [step, hs, Except.ok.injEq] at h
      rw [← h]
      simp only [sessionID] at hid ⊢
      by_cases hsp : s = p
      · subst hsp
        rw [hs] at hid
        simp only [List.getElem?_set_self hp]
        exact hid
      · simp only [List.getElem?_set_ne hsp]
        exact hid

theorem mapGet_remove_old {w : World} {id k p : Nat}
    (h : mapGet (SessionManager.Remove w id).mgr.sessions k = (some p, true)) :
    mapGet w.mgr.sessions k = (some p, true) := by
  cases hc : w.mgr.closed with
  | true =>
    simp only [SessionManager.Remove, hc, if_true] at h
    exact h
  | false =>
    rw [mapGet_remove_open hc] at h
    by_cases hk : k = id
    · simp [hk] at h
    · simpa [hk] using h

/-- An entry of the mapping after a call was there before or has just been stored under
the ID of its session. -/
theorem step_entry {fails : Nat → Bool} {w w1 : World} {op : Op} {k p : Nat}
    (h : step fails w op = .ok w1) (hg : mapGet w1.mgr.sessions k = (some p, true)) :
    mapGet w.mgr.sessions k = (some p, true) ∨ sessionID w1 p = some k := by
  cases op with
  | allocate =>
    cases hc : w.mgr.closed with
    | true =>
      simp only [step, allocate_closed hc, Except.map, Except.ok.injEq] at h
      rw [← h] at hg
      exact Or.inl hg
    | false =>
      cases hm : w.mgr.sessions with
      | none => simp [step, SessionManager.Allocate, hc, hm, mapSet, Except.map] at h
      | some m =>
        obtain ⟨w2, ha, _, hms, _, _, _, hnew⟩ := allocate_open_facts hc hm
        simp only [step, ha, Except.map, Except.ok.injEq] at h
        rw [← h] at hg ⊢
        rw [hms, mapGet_insert] at hg
        by_cases hk : k = (w.mgr.count + 1) % 65536
        · simp only [hk, if_true, Prod.mk.injEq, Option.some.injEq, and_true] at hg
          right
          rw [← hg, hk]
          exact hnew
        · simp only [hk, if_false] at hg
          exact Or.inl hg
  | add s =>
    cases hc : w.mgr.closed with
    | true =>
      simp only [step, SessionManager.Add, hc, if_true, Except.ok.injEq] at h
      rw [← h] at hg
      exact Or.inl hg
    | false =>
      cases hs : w.heap[s]? with
      | none => simp [step, SessionManager.Add, hc, hs] at h
      | some x =>
        cases hm : w.mgr.sessions with
        | none => simp [step, SessionManager.Add, hc, hs, hm, mapSet] at h
        | some m =>
          have hlt : s < w.heap.length := by
            rcases List.getElem?_eq_some_iff.mp hs with ⟨hlt, _⟩
            exact hlt
          simp only [step, add_open hc hm hs, Except.ok.injEq] at h
          rw [← h] at hg ⊢
          simp only [mapGet_insert] at hg
          by_cases hk : k = x.ID
          · simp only [hk, if_true, Prod.mk.injEq, Option.some.injEq, and_true] at hg
            right
            rw [← hg, hk]
            simp [sessionID, hlt]
          · simp only [hk, if_false] at hg
            exact Or.inl hg
  | remove id =>
    simp only [step, Except.ok.injEq] at h
    rw [← h] at hg
    exact Or.inl (mapGet_remove_old hg)
  | get id =>
    simp only [step, Except.ok.injEq] at h
    rw [← h] at hg
    exact Or.inl hg
  | size =>
    simp only [step, Except.ok.injEq] at h
    rw [← h] at hg
    exact Or.inl hg
  | count =>
    simp only [step, Except.ok.injEq] at h
    rw [← h] at hg
    exact Or.inl hg
  | closed =>
    simp only [step, Except.ok.injEq] at h
    rw [← h] at hg
    exact Or.inl hg
  | closeIfNoSession =>
    simp only [step, Except.ok.injEq] at h
    rw [← h] at hg
    left
    simp only [SessionManager.CloseIfNoSession] at hg
    split at hg
    · exact hg
    · split at hg <;> exact hg
  | close =>
    cases hr : SessionManager.Close fails w with
    | error f => simp [step, hr, Except.map] at h
    | ok r =>
      simp only [step, hr, Except.map, Except.ok.injEq] at h
      obtain ⟨_, _, _, _, _, _, hsame, hnil⟩ := close_ok_shape hr
      rw [← h] at hg
      cases hc : w.mgr.closed with
      | true =>
        rw [hsame hc] at hg
        exact Or.inl hg
      | false =>
        rw [hnil hc] at hg
        simp [mapGet] at hg
  | sessionClose s =>
    cases hr : Session.Close fails w s with
    | error f => simp [step, hr, Except.map] at h
    | ok r =>
      simp only [step, hr, Except.map, Except.ok.injEq] at h
      obtain ⟨_, x, a, _, _, hw⟩ := sessionClose_ok_shape hr
      rw [← h] at hg
      rcases hw with ⟨_, hw⟩ | ⟨_, hw⟩
      · rw [hw] at hg
        have h2 := mapGet_remove_old hg
        exact Or.inl h2
      · rw [hw] at hg
        exact Or.inl hg
  | newSession s =>
    simp only [step, Except.ok.injEq] at h
    rw [← h] at hg
    exact Or.inl hg
  | setStreams s i o =>
    cases hs : w.heap[s]? with
    | none => simp [step, hs] at h
    | some x =>
      simp only [step, hs, Except.ok.injEq] at h
      rw [← h] at hg
      exact Or.inl hg

theorem step_keysMatch {fails : Nat → Bool} {w w1 : World} {op : Op} (hk : KeysMatch w)
    (h : step fails w op = .ok w1) : KeysMatch w1 := by
  intro k p hg
  rcases step_entry h hg with hold | hnew
  · exact step_sessionID h (hk k p hold)
  · exact hnew

theorem runOps_keysMatch {fails : Nat → Bool} :
    ∀ (ops : List Op) (w w1 : World), KeysMatch w → runOps fails w ops = .ok w1 → KeysMatch w1
  | [], w, w1, hk, h => by
    simp only [runOps, Except.ok.injEq] at h
    rw [← h]
    exact hk
  | op :: ops, w, w1, hk, h => by
    cases hs : step fails w op with
    | error f => simp [runOps, hs] at h
    | ok w2 =>
      simp only [runOps, hs] at h
      exact runOps_keysMatch ops w2 w1 (step_keysMatch hk hs) h

theorem new_keysMatch (self : Nat) : KeysMatch (NewSessionManager self) := by
  intro k p hg
  simp [NewSessionManager, mapMake, mapGet] at hg

theorem reachable_keysMatch {fails : Nat → Bool} {self : Nat} {w : World}
    (h : Reachable fails self w) : KeysMatch w := by
  obtain ⟨ops, hops⟩ := h
  exact runOps_keysMatch ops _ _ (new_keysMatch self) hops

/-- What `Session.Close` does with a session that `Get` returns and whose parent is the
registry itself. -/
theorem sessionClose_registered {fails : Nat → Bool} {w : World} {k p : Nat} {s : Session}
    (hk : KeysMatch w) (hg : SessionManager.Get w k = (some p, true))
    (hs : w.heap[p]? = some s) (hpar : s.parent = some w.self) :
    k = s.ID ∧
    Session.Close fails w p = .ok (SessionManager.Remove
      { w with trace := (commonClose fails s.input
          (commonClose fails s.output w.trace).1).1 } s.ID, false) ∧
    ∀ w1, w1 = SessionManager.Remove
        { w with trace := (commonClose fails s.input
            (commonClose fails s.output w.trace).1).1 } s.ID →
      SessionManager.Get w1 s.ID = (none, false) ∧
      SessionManager.Size w1 + 1 = SessionManager.Size w ∧
      (∀ j, j ≠ s.ID → SessionManager.Get w1 j = SessionManager.Get w j) ∧
      w1.heap = w.heap ∧
      w1.trace = w.trace ++ (commonClose fails s.output []).1 ++
        (commonClose fails s.input []).1 := by
  have hc : w.mgr.closed = false := by
    cases hc : w.mgr.closed with
    | true => simp [SessionManager.Get, hc] at hg
    | false => rfl
  have hmg : mapGet w.mgr.sessions k = (some p, true) := by
    simpa [SessionManager.Get, hc] using hg
  have hid := hk k p hmg
  have hks : k = s.ID := by
    simp only [sessionID, hs, Option.map_some', Option.some.injEq] at hid
    exact hid.symm
  refine ⟨hks, ?_, ?_⟩
  · simp [Session.Close, hs, hpar]
  · intro w1 hw1
    subst hw1
    have hg2 : SessionManager.Get { w with trace := (commonClose fails s.input
        (commonClose fails s.output w.trace).1).1 } s.ID = (some p, true) := by
      rw [← hks]
      exact hg
    refine ⟨?_, ?_, ?_, ?_, ?_⟩
    · rw [get_remove]
      simp
    · exact size_remove_found hg2
    · intro j hj
      rw [get_remove]
      simp only [hj, if_false]
      rfl
    · rw [remove_heap]
    · rw [remove_trace]
      simp only
      rw [commonClose_fst fails s.input, commonClose_fst fails s.output]

/-- C12, counterexample. A caller-built session with a nil parent is registered by `Add`
in an open registry (`Get(7)` returns it); its `Close` does not return: after closing the
streams it calls `Remove` through the nil parent and panics. -/
theorem sessionClose_without_parent_panics :
    (runOps (fun _ => false) (NewSessionManager 0) [Op.newSession orphanSession, Op.add 0]).map
      (fun w => (SessionManager.Closed w, SessionManager.Get w 7,
        (Session.Close (fun _ => false) w 0).map (fun r => r.2))) =
    .ok (false, (some 0, true), .error Fault.nilDeref) := by
  rfl

/-- C12, amended. For every session `s` that `Get` returns on a registry (in any state it
can reach) and whose parent is that registry, `Session.Close` returns nil whatever closes
fail; its effects are, in this order, the close of `s.output`, the close of `s.input` and
`Remove(s.ID)`; afterwards `Get(s.ID)` reports not-found, `Size()` is one less and
`Get(j)` is as before for every other ID `j`. -/
theorem sessionClose_effects (fails : Nat → Bool) (self : Nat) (w : World) (k p : Nat)
    (s : Session) (hr : Reachable fails self w)
    (hg : SessionManager.Get w k = (some p, true)) (hs : w.heap[p]? = some s)
    (hpar : s.parent = some w.self) :
    ∃ w1, Session.Close fails w p = .ok (w1, false) ∧
      w1 = SessionManager.Remove
        { w with trace := w.trace ++ (commonClose fails s.output []).1 ++
            (commonClose fails s.input []).1 } s.ID ∧
      SessionManager.Get w1 s.ID = (none, false) ∧
      SessionManager.Size w1 + 1 = SessionManager.Size w ∧
      (∀ j, j ≠ s.ID → SessionManager.Get w1 j = SessionManager.Get w j) := by
  obtain ⟨_, hcl, hrest⟩ := sessionClose_registered (reachable_keysMatch hr) hg hs hpar
  obtain ⟨h1, h2, h3, _, _⟩ := hrest _ rfl
  refine ⟨_, hcl, ?_, h1, h2, h3⟩
  rw [commonClose_fst fails s.input, commonClose_fst fails s.output]

theorem sessionClose_effects_witness :
    Reachable (fun _ => true) 0 oneSession ∧
    SessionManager.Get oneSession 1 = (some 0, true) ∧
    oneSession.heap[0]? = some
      { ID := 1, parent := some 0, tokenChan := some 1, input := some 10,
        output := some 11, transferType := 0 } ∧
    ∃ w1, Session.Close (fun _ => true) oneSession 0 = .ok (w1, false) ∧
      w1 = SessionManager.Remove
        { oneSession with
          trace := oneSession.trace ++ [Event.closeStream 11 true] ++
            [Event.closeStream 10 true] } 1 ∧
      SessionManager.Get w1 1 = (none, false) ∧
      SessionManager.Size w1 + 1 = SessionManager.Size oneSession ∧
      (∀ j, j ≠ 1 → SessionManager.Get w1 j = SessionManager.Get oneSession j) :=
  ⟨⟨oneSessionOps, rfl⟩, rfl, rfl,
    sessionClose_effects (fun _ => true) 0 oneSession 1 0 _ ⟨oneSessionOps, rfl⟩ rfl rfl rfl⟩

/-- C20, counterexample. A caller-built session whose parent is another registry is
registered by `Add` and returned by `Get(7)`; its `Close` returns but sends `Remove` to
the other registry: the entry stays and `Size()` is still 1. -/
theorem sessionClose_foreign_parent_keeps_entry :
    (runOps (fun _ => false) (NewSessionManager 0)
        [Op.newSession foreignSession, Op.add 0]).map
      (fun w => (SessionManager.Get w 7, SessionManager.Size w,
        (Session.Close (fun _ => false) w 0).map
          (fun r => (SessionManager.Get r.1 7, SessionManager.Size r.1)))) =
    .ok ((some 0, true), 1, .ok ((some 0, true), 1)) := by
  rfl

/-- C20, amended. In every state a registry can reach every entry of the mapping stored
under key `k` is a session whose ID is `k`; hence `Session.Close` of a session that `Get`
returns and whose parent is the registry removes that session's own entry, `Size()`
drops by exactly one and no other entry changes. -/
theorem keys_match_ids (fails : Nat → Bool) (self : Nat) (w : World)
    (hr : Reachable fails self w) :
    (∀ k p, mapGet w.mgr.sessions k = (some p, true) → sessionID w p = some k) ∧
    (∀ k p s, SessionManager.Get w k = (some p, true) → w.heap[p]? = some s →
      s.parent = some w.self →
      ∃ w1, Session.Close fails w p = .ok (w1, false) ∧
        s.ID = k ∧ SessionManager.Get w1 k = (none, false) ∧
        SessionManager.Size w1 + 1 = SessionManager.Size w ∧
        (∀ j, j ≠ k → SessionManager.Get w1 j = SessionManager.Get w j)) := by
  have hk := reachable_keysMatch hr
  refine ⟨hk, ?_⟩
  intro k p s hg hs hpar
  obtain ⟨hks, hcl, hrest⟩ := @sessionClose_registered fails w k p s hk hg hs hpar
  obtain ⟨h1, h2, h3, _, _⟩ := hrest _ rfl
  subst hks
  exact ⟨_, hcl, rfl, h1, h2, h3⟩

theorem keys_match_ids_witness :
    Reachable (fun _ => false) 0 oneSession ∧
    ((∀ k p, mapGet oneSession.mgr.sessions k = (some p, true) →
        sessionID oneSession p = some k) ∧
     (∀ k p s, SessionManager.Get oneSession k = (some p, true) →
        oneSession.heap[p]? = some s → s.parent = some oneSession.self →
        ∃ w1, Session.Close (fun _ => false) oneSession p = .ok (w1, false) ∧
          s.ID = k ∧ SessionManager.Get w1 k = (none, false) ∧
          SessionManager.Size w1 + 1 = SessionManager.Size oneSession ∧
          (∀ j, j ≠ k → SessionManager.Get w1 j = SessionManager.Get oneSession j))) :=
  ⟨⟨oneSessionOps, rfl⟩, keys_match_ids (fun _ => false) 0 oneSession ⟨oneSessionOps, rfl⟩⟩

theorem remove_mgr_congr {w v : World} (h : w.mgr = v.mgr) (id : Nat) :
    (SessionManager.Remove w id).mgr = (SessionManager.Remove v id).mgr := by
  cases hc : w.mgr.closed with
  | true =>
    have hv : v.mgr.closed = true := by rw [← h]; exact hc
    simp [SessionManager.Remove, hc, hv, h]
  | false =>
    have hv : v.mgr.closed = false := by rw [← h]; exact hc
    simp [SessionManager.Remove, hc, hv, h]

theorem remove_remove_mgr (w : World) (id : Nat) :
    (SessionManager.Remove (SessionManager.Remove w id) id).mgr =
      (SessionManager.Remove w id).mgr := by
  cases hc : w.mgr.closed with
  | true => simp [SessionManager.Remove, hc]
  | false =>
    have hnf : (mapGet (mapDelete w.mgr.sessions id) id).2 = false := by
      rw [mapGet_delete]
      simp
    have hdd := mapDelete_of_not_found hnf
    by_cases hz : mapLen (mapDelete w.mgr.sessions id) = 0
    · have hm : mapDelete mapMake id = mapMake := by
        apply mapDelete_of_not_found
        rw [mapGet_make]
      have hlen : mapLen mapMake = 0 := rfl
      simp [SessionManager.Remove, hc, hz, hm, hlen]
    · simp [SessionManager.Remove, hc, hz, hdd]

/-- One call of `Session.Close` that returns: what it appends to the trace and what it
leaves alone. -/
theorem sessionClose_once {fails : Nat → Bool} {w w1 : World} {p : Nat} {e : Bool}
    (h : Session.Close fails w p = .ok (w1, e)) :
    ∃ s, w.heap[p]? = some s ∧
      w1.trace = w.trace ++ ((commonClose fails s.output []).1 ++
        (commonClose fails s.input []).1) ∧
      w1.heap = w.heap ∧
      ∃ w2, Session.Close fails w1 p = .ok (w2, false) ∧ w2.mgr = w1.mgr := by
  obtain ⟨_, s, a, hs, hpar, hw⟩ := sessionClose_ok_shape h
  have htr : (commonClose fails s.input (commonClose fails s.output w.trace).1).1 =
      w.trace ++ ((commonClose fails s.output []).1 ++ (commonClose fails s.input []).1) := by
    rw [commonClose_fst fails s.input, commonClose_fst fails s.output, List.append_assoc]
  refine ⟨s, hs, ?_, ?_, ?_⟩
  · rcases hw with ⟨_, hw⟩ | ⟨_, hw⟩
    · rw [hw, remove_trace]
      exact htr
    · rw [hw]
      exact htr
  · rcases hw with ⟨_, hw⟩ | ⟨_, hw⟩
    · rw [hw, remove_heap]
    · rw [hw]
  · rcases hw with ⟨ha, hw⟩ | ⟨ha, hw⟩
    · have hs1 : w1.heap[p]? = some s := by rw [hw, remove_heap]; exact hs
      have hself : w1.self = w.self := by
        rw [hw]
        cases hc : w.mgr.closed <;> simp [SessionManager.Remove, hc]
      have ha1 : a = w1.self := by rw [hself]; exact ha
      refine ⟨SessionManager.Remove { w1 with trace := (commonClose fails s.input
          (commonClose fails s.output w1.trace).1).1 } s.ID,
        by simp [Session.Close, hs1, hpar, ha1], ?_⟩
      have hcongr : ({ w1 with trace := (commonClose fails s.input
          (commonClose fails s.output w1.trace).1).1 } : World).mgr = w1.mgr := rfl
      rw [remove_mgr_congr hcongr s.ID]
      rw [hw]
      exact remove_remove_mgr _ _
    · have hs1 : w1.heap[p]? = some s := by rw [hw]; exact hs
      have ha1 : ¬ a = w1.self := by rw [hw]; exact ha
      exact ⟨{ w1 with trace := (commonClose fails s.input
          (commonClose fails s.output w1.trace).1).1 },
        by simp [Session.Close, hs1, hpar, ha1], rfl⟩

/-- C16, counterexample. Two calls of `Session.Close` on the registered session of
`oneSession` close its input (stream 10) twice and its output (stream 11) twice.  And a
later `Close` of a session can change the registry: after `reuseOps` session 1 is
registered under ID 1, and a second `Close` of the released session 0, which also has
ID 1, removes it. -/
theorem sessionClose_twice_closes_twice :
    (closeRepeatedly (fun _ => false) 2 oneSession 0).map
      (fun w => (List.count (Event.closeStream 10 false) w.trace,
                 List.count (Event.closeStream 11 false) w.trace)) = .ok (2, 2) ∧
    (runOps (fun _ => false) (NewSessionManager 0) reuseOps).map
      (fun w => SessionManager.Get w 1) = .ok (some 1, true) ∧
    (runOps (fun _ => false) (NewSessionManager 0) (reuseOps ++ [Op.sessionClose 0])).map
      (fun w => SessionManager.Get w 1) = .ok (none, false) := by
  refine ⟨?_, ?_, ?_⟩ <;> rfl

/-- C16, amended. Every call of `Session.Close` that returns closes the session's output
and then its input once more, so `n + 1` calls in a row append these two closes `n + 1`
times; the calls after the first leave the registry (mapping, counter, closed flag) as
the first call left it. -/
theorem sessionClose_closes_on_every_call (fails : Nat → Bool) :
    ∀ (n : Nat) (w w1 : World) (p : Nat) (e : Bool),
      Session.Close fails w p = .ok (w1, e) →
      ∃ s wn, w.heap[p]? = some s ∧ closeRepeatedly fails (n + 1) w p = .ok wn ∧
        wn.trace = w.trace ++ (List.replicate (n + 1)
          ((commonClose fails s.output []).1 ++ (commonClose fails s.input []).1)).flatten ∧
        wn.mgr = w1.mgr
  | 0, w, w1, p, e, h => by
    obtain ⟨s, hs, htr, _, _⟩ := sessionClose_once h
    refine ⟨s, w1, hs, by simp [closeRepeatedly, h], ?_, rfl⟩
    rw [htr]
    simp
  | n + 1, w, w1, p, e, h => by
    obtain ⟨s, hs, htr, hheap, w2, h2, hmgr⟩ := sessionClose_once h
    obtain ⟨s1, wn, hs1, hrun, htrn, hmn⟩ :=
      sessionClose_closes_on_every_call fails n w1 w2 p false h2
    have hss : s1 = s := by
      rw [hheap, hs] at hs1
      exact (Option.some.inj hs1).symm
    subst hss
    refine ⟨s1, wn, hs, ?_, ?_, ?_⟩
    · rw [closeRepeatedly, h]
      exact hrun
    · rw [htrn, htr, List.replicate_succ _ (n + 1), List.flatten_cons, List.append_assoc]
    · rw [hmn, hmgr]

theorem sessionClose_closes_on_every_call_witness :
    Session.Close (fun _ => false) oneSession 0 =
      .ok (SessionManager.Remove
        { oneSession with
          trace := [Event.closeStream 11 false, Event.closeStream 10 false] } 1, false) ∧
    ∃ s wn, oneSession.heap[0]? = some s ∧
      closeRepeatedly (fun _ => false) (2 + 1) oneSession 0 = .ok wn ∧
      wn.trace = oneSession.trace ++ (List.replicate (2 + 1)
        ((commonClose (fun _ => false) s.output []).1 ++
          (commonClose (fun _ => false) s.input []).1)).flatten ∧
      wn.mgr = (SessionManager.Remove
        { oneSession with
          trace := [Event.closeStream 11 false, Event.closeStream 10 false] } 1).mgr :=
  ⟨rfl, sessionClose_closes_on_every_call (fun _ => false) 2 oneSession _ 0 false rfl⟩

/-! ## The code against the table of the specification -/

theorem foundPair_regSet (t : RegTable) (k j : Nat) (v : Option Nat) :
    foundPair (regSet t k v j) = if j = k then foundPair v else foundPair (t j) := by
  by_cases h : j = k <;> simp [regSet, h]

theorem agree_step {fails : Nat → Bool} {w w1 : World} {t : RegTable} {op : Op}
    (hag : ∀ id, SessionManager.Get w id = specGet w t id)
    (h : step fails w op = .ok w1) :
    ∀ id, SessionManager.Get w1 id = specGet w1 (specStep true w t op) id := by
  intro id
  cases hc1 : w1.mgr.closed with
  | true => simp [SessionManager.Get, specGet, SessionManager.Closed, hc1]
  | false =>
    have hc : w.mgr.closed = false := by
      cases hc : w.mgr.closed with
      | false => rfl
      | true =>
        have := step_closed_mgr hc h
        rw [this, hc] at hc1
        exact absurd hc1 (by simp)
    have hold : ∀ j, mapGet w.mgr.sessions j = foundPair (t j) := by
      intro j
      have := hag j
      simpa [SessionManager.Get, specGet, SessionManager.Closed, hc] using this
    simp only [SessionManager.Get, specGet, SessionManager.Closed, hc1, Bool.false_eq_true,
      if_false]
    cases op with
    | allocate =>
      cases hm : w.mgr.sessions with
      | none => simp [step, SessionManager.Allocate, hc, hm, mapSet, Except.map] at h
      | some m =>
        obtain ⟨w2, ha, _, hms, _, _, _, hnew⟩ := allocate_open_facts hc hm
        simp only [step, ha, Except.map, Except.ok.injEq] at h
        subst h
        simp only [specStep, ha, hnew]
        rw [hms, mapGet_insert, foundPair_regSet, ← hold id, hm]
        rfl
    | add p0 =>
      cases hs : w.heap[p0]? with
      | none => simp [step, SessionManager.Add, hc, hs] at h
      | some x =>
        cases hm : w.mgr.sessions with
        | none => simp [step, SessionManager.Add, hc, hs, hm, mapSet] at h
        | some m =>
          simp only [step, add_open hc hm hs, Except.ok.injEq] at h
          subst h
          have hid : sessionID w p0 = some x.ID := by simp [sessionID, hs]
          simp only [specStep, hc, hid, Bool.false_eq_true, if_false]
          rw [mapGet_insert, foundPair_regSet, ← hold id, hm]
          rfl
    | remove id0 =>
      simp only [step, Except.ok.injEq] at h
      subst h
      simp only [specStep]
      rw [mapGet_remove_open hc, foundPair_regSet, ← hold id]
      rfl
    | get id0 =>
      simp only [step, Except.ok.injEq] at h
      subst h
      exact hold id
    | size =>
      simp only [step, Except.ok.injEq] at h
      subst h
      exact hold id
    | count =>
      simp only [step, Except.ok.injEq] at h
      subst h
      exact hold id
    | closed =>
      simp only [step, Except.ok.injEq] at h
      subst h
      exact hold id
    | closeIfNoSession =>
      simp only [step, Except.ok.injEq] at h
      subst h
      by_cases hz : mapLen w.mgr.sessions = 0
      · simp [SessionManager.CloseIfNoSession, hc, hz] at hc1
      · simp only [SessionManager.CloseIfNoSession, hc, hz, Bool.false_eq_true, if_false,
          ne_eq, not_false_eq_true, if_true, specStep]
        exact hold id
    | close =>
      cases hr : SessionManager.Close fails w with
      | error f => simp [step, hr, Except.map] at h
      | ok r =>
        simp only [step, hr, Except.map, Except.ok.injEq] at h
        obtain ⟨_, hcl, _⟩ := close_ok_shape hr
        rw [h, hc1] at hcl
        exact absurd hcl (by simp)
    | sessionClose p0 =>
      cases hr : Session.Close fails w p0 with
      | error f => simp [step, hr, Except.map] at h
      | ok r =>
        simp only [step, hr, Except.map, Except.ok.injEq] at h
        obtain ⟨_, x, a, hs, hpar, hw⟩ := sessionClose_ok_shape hr
        rw [h] at hw
        rcases hw with ⟨ha, hw⟩ | ⟨ha, hw⟩
        · have hp2 : x.parent = some w.self := by rw [hpar, ha]
          simp only [specStep, hs, hp2, ne_eq, not_true_eq_false, decide_False,
            Bool.and_false, Bool.false_eq_true, if_false]
          rw [hw]
          have hcx : ({ w with trace := (commonClose fails x.input
              (commonClose fails x.output w.trace).1).1 } : World).mgr.closed = false := hc
          rw [mapGet_remove_open hcx, foundPair_regSet, ← hold id]
          rfl
        · have hp2 : ¬ x.parent = some w.self := by
            rw [hpar]
            intro hq
            exact ha (Option.some.inj hq)
          simp only [specStep, hs, hp2, ne_eq, not_false_eq_true, decide_True,
            Bool.and_self, if_true]
          rw [hw]
          exact hold id
    | newSession x =>
      simp only [step, Except.ok.injEq] at h
      subst h
      exact hold id
    | setStreams p0 i o =>
      cases hs : w.heap[p0]? with
      | none => simp [step, hs] at h
      | some x =>
        simp only [step, hs, Except.ok.injEq] at h
        subst h
        exact hold id

theorem agree_run {fails : Nat → Bool} :
    ∀ (ops : List Op) (w w1 : World) (t t1 : RegTable),
      (∀ id, SessionManager.Get w id = specGet w t id) →
      specRun fails true w t ops = .ok (w1, t1) →
      ∀ id, SessionManager.Get w1 id = specGet w1 t1 id
  | [], w, w1, t, t1, hag, h => by
    simp only [specRun, Except.ok.injEq, Prod.mk.injEq] at h
    rw [← h.1, ← h.2]
    exact hag
  | op :: ops, w, w1, t, t1, hag, h => by
    cases hs : step fails w op with
    | error f => simp [specRun, hs] at h
    | ok w2 =>
      simp only [specRun, hs] at h
      exact agree_run ops w2 w1 _ t1 (agree_step hag hs) h

/-- C11, counterexample. A session with ID 7 whose parent is another registry is
registered by `Add` and then closed: by the words of the claim a `Close` of a session
with ID 7 has happened, so `Get(7)` should report not-found, but the code still returns
the session. -/
theorem get_finds_session_closed_elsewhere :
    (specRun (fun _ => false) false (NewSessionManager 0) (fun _ => none)
        [Op.newSession foreignSession, Op.add 0, Op.sessionClose 0]).map
      (fun r => (SessionManager.Get r.1 7, specGet r.1 r.2 7)) =
    .ok ((some 0, true), (none, false)) := by
  rfl

/-- C11, amended. After every sequence of calls on a new registry and for every ID,
`Get(id)` returns the session and found exactly when the registry is not closed and that
session is the one most recently registered under `id` by `Allocate` or `Add`, with no
`Remove(id)` and no `Close` of a session with that ID whose parent is this registry
since; in every other case it reports not-found.  `Get` changes no state. -/
theorem get_follows_registration (fails : Nat → Bool) (self : Nat) (ops : List Op)
    (w : World) (t : RegTable)
    (h : specRun fails true (NewSessionManager self) (fun _ => none) ops = .ok (w, t))
    (id : Nat) :
    SessionManager.Get w id = specGet w t id ∧ step fails w (Op.get id) = .ok w := by
  refine ⟨?_, rfl⟩
  apply agree_run ops (NewSessionManager self) w (fun _ => none) t _ h
  intro j
  rfl

theorem get_follows_registration_witness :
    specRun (fun _ => false) true (NewSessionManager 0) (fun _ => none) oneSessionOps =
      .ok (oneSession, regSet (fun _ => none) 1 (some 0)) ∧
    (SessionManager.Get oneSession 1 =
        specGet oneSession (regSet (fun _ => none) 1 (some 0)) 1 ∧
      step (fun _ => false) oneSession (Op.get 1) = .ok oneSession) :=
  ⟨rfl, get_follows_registration (fun _ => false) 0 oneSessionOps oneSession _ rfl 1⟩

/-- C14, failing schedule. On an open registry with one registered session the schedule
`lostWakeup` ends with the scheduler parked on the request channel and the session
parked on its token channel; no other session is reading, and neither the scheduler nor
the reader can make another step. -/
theorem lost_wakeup_reached :
    ∃ c, runActs (fun _ => false) (fun r => r) (startConc (NewSessionManager 0)) lostWakeup =
        .ok (some c) ∧
      SessionManager.Closed c.w = false ∧ SessionManager.Get c.w 1 = (some 0, true) ∧
      SessionManager.Size c.w = 1 ∧
      c.sched = SchedPc.idle ∧ c.readers 0 = ReadPc.waitToken (some 1) ∧
      (c.w.heap[0]?).map (fun s => s.tokenChan) = some (some 1) ∧
      cstep (fun _ => false) (fun r => r) c Act.sched = .ok none ∧
      cstep (fun _ => false) (fun r => r) c (Act.reader 0) = .ok none :=
  ⟨_, rfl, rfl, rfl, rfl, rfl, rfl, rfl, rfl, rfl⟩

/-- C18, failing schedule. A session is allocated, the registry is closed with `Close`,
and the session calls `ReadMultiBuffer`: the `select` sends on the closed request
channel and panics. -/
theorem read_after_close_panics :
    runActs (fun _ => false) (fun r => r) (startConc (NewSessionManager 0)) readAfterClose =
      .error Fault.sendClosedChan := by
  rfl

/-- In every state a registry can reach the request channel is closed only if the
registry is closed. -/
theorem request_channel_closed_only_when_closed {fails : Nat → Bool} {self : Nat} {w : World}
    (hr : Reachable fails self w) (h : chanClosed w.chans w.mgr.requestChan = true) :
    SessionManager.Closed w = true := by
  cases hc : w.mgr.closed with
  | true => exact hc
  | false =>
    obtain ⟨c, hrc, hch⟩ := (reachable_inv hr).openChan hc
    simp [chanClosed, hrc, hch] at h

/-- C17, failing input. `CloseIfNoSession` on a new registry closes it and leaves the
request channel open; a `Close` after it returns at once and leaves it open too, and a
scheduler parked on the channel stays parked. -/
theorem closeIfNoSession_leaves_channel_open :
    SessionManager.Closed (SessionManager.CloseIfNoSession (NewSessionManager 0)).1 = true ∧
    chanClosed (SessionManager.CloseIfNoSession (NewSessionManager 0)).1.chans
      (SessionManager.CloseIfNoSession (NewSessionManager 0)).1.mgr.requestChan = false ∧
    (runOps (fun _ => false) (NewSessionManager 0) [Op.closeIfNoSession, Op.close]).map
      (fun w => (SessionManager.Closed w, chanClosed w.chans w.mgr.requestChan)) =
      .ok (true, false) ∧
    SessionManager.sendToken
      { w := (SessionManager.CloseIfNoSession (NewSessionManager 0)).1, sched := SchedPc.idle,
        readers := fun _ => ReadPc.notReading, log := [] } = .ok none := by
  refine ⟨?_, ?_, ?_, ?_⟩ <;> rfl

/-! ## Readers and their permission -/

theorem sinceCall_append (p : Nat) (log : List CEvent) (e : CEvent) :
    sinceCall p (log ++ [e]) =
      if e = CEvent.call p then [] else if e.session = p then sinceCall p log ++ [e]
      else sinceCall p log := by
  simp [sinceCall, List.foldl_append]

theorem sinceCall_other (p q : Nat) (hpq : p ≠ q) (log : List CEvent) :
    ∀ evs : List CEvent, (∀ e ∈ evs, e.session = q) → sinceCall p (log ++ evs) = sinceCall p log
  | [], _ => by simp
  | e :: evs, h => by
    have he : e.session = q := h e (List.mem_cons_self _ _)
    have hne : e ≠ CEvent.call p := by
      intro heq
      rw [heq] at he
      exact hpq he
    have hs : ¬ e.session = p := by
      rw [he]
      exact fun hqp => hpq hqp.symm
    have : log ++ e :: evs = (log ++ [e]) ++ evs := by simp
    rw [this, sinceCall_other p q hpq (log ++ [e]) evs
      (fun x hx => h x (List.mem_cons_of_mem _ hx)), sinceCall_append]
    simp [hne, hs]

theorem call_mem_other (p q : Nat) (hpq : p ≠ q) (log evs : List CEvent)
    (h : ∀ e ∈ evs, e.session = q) : CEvent.call p ∈ log ++ evs ↔ CEvent.call p ∈ log := by
  constructor
  · intro hm
    rcases List.mem_append.mp hm with h1 | h1
    · exact h1
    · exact absurd (h _ h1) hpq
  · intro hm
    exact List.mem_append.mpr (Or.inl hm)

theorem readerOK_same {rd : Nat → Nat} {c c1 : Conc} {p : Nat} (hr : c1.readers p = c.readers p)
    (hl : c1.log = c.log) (h : ReaderOK rd c p) : ReaderOK rd c1 p := by
  unfold ReaderOK at h ⊢
  rw [hr, hl]
  exact h

theorem readerOK_other {rd : Nat → Nat} {c c1 : Conc} {p q : Nat} {pc : ReadPc} {evs : List CEvent}
    (hpq : p ≠ q) (hr : c1.readers = setReader c.readers q pc) (hl : c1.log = c.log ++ evs)
    (hev : ∀ e ∈ evs, e.session = q) (h : ReaderOK rd c p) : ReaderOK rd c1 p := by
  have hrp : c1.readers p = c.readers p := by
    rw [hr]
    simp [setReader, hpq]
  unfold ReaderOK at h ⊢
  rw [hrp, hl, sinceCall_other p q hpq c.log evs hev, call_mem_other p q hpq c.log evs hev]
  exact h

theorem trySend_true {chans : List Bool} {c : Option Nat} {b : Bool}
    (h : trySend chans c b = .ok true) : b = true := by
  cases c with
  | none => simp [trySend] at h
  | some i =>
    cases hi : chans[i]? with
    | none => simp [trySend, hi] at h
    | some v =>
      cases v with
      | true => simp [trySend, hi] at h
      | false =>
        simp only [trySend, hi, Except.ok.injEq] at h
        exact h

theorem sendToken_move {rd : Nat → Nat} {c c1 : Conc}
    (h : SessionManager.sendToken c = .ok (some c1)) : Move rd c Act.sched c1 := by
  unfold SessionManager.sendToken at h
  split at h
  · simp only [Except.ok.injEq, Option.some.injEq] at h
    subst h
    exact Move.quiet rfl rfl
  · rename_i q rest hit hsc
    split at h
    · simp at h
    · rename_i x hx
      split at h
      · simp at h
      · rename_i hts
        simp only [Except.ok.injEq, Option.some.injEq] at h
        subst h
        have hw := trySend_true hts
        simp only [decide_eq_true_eq] at hw
        exact Move.tokened q rest hit x rfl hsc hx hw rfl rfl
      · simp only [Except.ok.injEq, Option.some.injEq] at h
        subst h
        exact Move.quiet rfl rfl
  · simp only [Except.ok.injEq, Option.some.injEq] at h
    subst h
    exact Move.quiet rfl rfl
  · split at h
    · simp only [Except.ok.injEq, Option.some.injEq] at h
      subst h
      exact Move.quiet rfl rfl
    · split at h
      · simp only [Except.ok.injEq, Option.some.injEq] at h
        subst h
        exact Move.quiet rfl rfl
      · simp only [Except.ok.injEq, Option.some.injEq] at h
        subst h
        exact Move.quiet rfl rfl
  · split at h
    · simp only [Except.ok.injEq, Option.some.injEq] at h
      subst h
      exact Move.quiet rfl rfl
    · simp at h
  · simp at h

theorem readMultiBuffer_move {rd : Nat → Nat} {c c1 : Conc} {p : Nat}
    (h : Session.ReadMultiBuffer rd c p = .ok (some c1)) : Move rd c (Act.reader p) c1 := by
  unfold Session.ReadMultiBuffer at h
  split at h
  · rename_i hpc
    split at h
    · simp at h
    · split at h
      · simp at h
      · split at h
        · rename_i hself
          split at h
          · simp at h
          · rename_i hts
            simp only [Except.ok.injEq, Option.some.injEq] at h
            subst h
            have hw := trySend_true hts
            simp only [decide_eq_true_eq] at hw
            exact Move.sent p rfl hpc hw rfl rfl rfl
          · simp only [Except.ok.injEq, Option.some.injEq] at h
            subst h
            exact Move.missed p rfl hpc rfl rfl
        · simp at h
  · rename_i hpc
    split at h
    · simp at h
    · rename_i x hx
      simp only [Except.ok.injEq, Option.some.injEq] at h
      subst h
      exact Move.parked p x.tokenChan rfl hpc rfl rfl
  · rename_i g hpc
    split at h
    · simp at h
    · rename_i x hx
      split at h
      · simp at h
      · rename_i r hr
        simp only [Except.ok.injEq, Option.some.injEq] at h
        subst h
        exact Move.readDone p g x r rfl hpc hx hr rfl rfl
  · simp at h

theorem cstep_move {fails : Nat → Bool} {rd : Nat → Nat} {c c1 : Conc} {act : Act}
    (h : cstep fails rd c act = .ok (some c1)) : Move rd c act c1 := by
  cases act with
  | op o =>
    simp only [cstep] at h
    split at h
    · simp at h
    · split at h
      · simp at h
      · simp only [Except.ok.injEq, Option.some.injEq] at h
        subst h
        exact Move.quiet rfl rfl
  | sched => exact sendToken_move h
  | call q =>
    simp only [cstep] at h
    split at h
    · rename_i hpc
      simp only [Except.ok.injEq, Option.some.injEq] at h
      subst h
      exact Move.called q rfl (Or.inl hpc) rfl rfl
    · rename_i res hpc
      simp only [Except.ok.injEq, Option.some.injEq] at h
      subst h
      exact Move.called q rfl (Or.inr ⟨res, hpc⟩) rfl rfl
    · simp at h
  | reader q => exact readMultiBuffer_move h

theorem readerOK_move {rd : Nat → Nat} {c c1 : Conc} {act : Act}
    (hall : ∀ p, ReaderOK rd c p) (hm : Move rd c act c1) : ∀ p, ReaderOK rd c1 p := by
  intro p
  cases hm with
  | quiet hr hl => exact readerOK_same (by rw [hr]) hl (hall p)
  | called q ha hpc hr hl =>
    by_cases hpq : p = q
    · subst hpq
      have h1 : c1.readers p = .atSelect := by rw [hr]; simp [setReader]
      simp only [ReaderOK, h1, hl, sinceCall_append]
      simp
    · exact readerOK_other hpq hr hl (by simp [CEvent.session]) (hall p)
  | sent q ha hpc hs hs1 hr hl =>
    by_cases hpq : p = q
    · subst hpq
      have h0 := hall p
      simp only [ReaderOK, hpc] at h0
      have h1 : c1.readers p = .granted .demand := by rw [hr]; simp [setReader]
      simp only [ReaderOK, h1, hl, sinceCall_append, h0.2]
      simp [CEvent.session, Grant.event, h0.1]
    · exact readerOK_other hpq hr hl (by simp [CEvent.session]) (hall p)
  | missed q ha hpc hr hl =>
    by_cases hpq : p = q
    · subst hpq
      have h0 := hall p
      simp only [ReaderOK, hpc] at h0
      have h1 : c1.readers p = .toWait := by rw [hr]; simp [setReader]
      simp only [ReaderOK, h1, hl]
      exact h0
    · exact @readerOK_other rd c c1 p q _ [] hpq hr (by simp [hl]) (by simp) (hall p)
  | parked q ch ha hpc hr hl =>
    by_cases hpq : p = q
    · subst hpq
      have h0 := hall p
      simp only [ReaderOK, hpc] at h0
      have h1 : c1.readers p = .waitToken ch := by rw [hr]; simp [setReader]
      simp only [ReaderOK, h1, hl]
      exact h0
    · exact @readerOK_other rd c c1 p q _ [] hpq hr (by simp [hl]) (by simp) (hall p)
  | tokened q rest hit s ha hs hh hpc hr hl =>
    by_cases hpq : p = q
    · subst hpq
      have h0 := hall p
      simp only [ReaderOK, hpc] at h0
      have h1 : c1.readers p = .granted .token := by rw [hr]; simp [setReader]
      simp only [ReaderOK, h1, hl, sinceCall_append, h0.2]
      simp [CEvent.session, Grant.event, h0.1]
    · exact readerOK_other hpq hr hl (by simp [CEvent.session]) (hall p)
  | readDone q g s r ha hpc hh hin hr hl =>
    by_cases hpq : p = q
    · subst hpq
      have h0 := hall p
      simp only [ReaderOK, hpc] at h0
      have h1 : c1.readers p = .returned (rd r) := by rw [hr]; simp [setReader]
      have hl2 : c1.log = (c.log ++ [CEvent.read p r (rd r)]) ++ [CEvent.ret p (rd r)] := by
        rw [hl]
        simp
      simp only [ReaderOK, h1, hl2, sinceCall_append, h0.2]
      refine ⟨by simp [h0.1], g, r, rfl, ?_⟩
      simp [CEvent.session]
    · exact readerOK_other hpq hr hl (by simp [CEvent.session]) (hall p)

theorem readerOK_run {fails : Nat → Bool} {rd : Nat → Nat} :
    ∀ (acts : List Act) (c c1 : Conc), (∀ p, ReaderOK rd c p) →
      runActs fails rd c acts = .ok (some c1) → ∀ p, ReaderOK rd c1 p
  | [], c, c1, hall, h => by
    simp only [runActs, Except.ok.injEq, Option.some.injEq] at h
    rw [← h]
    exact hall
  | a :: acts, c, c1, hall, h => by
    cases hs : cstep fails rd c a with
    | error f => simp [runActs, hs] at h
    | ok r =>
      cases r with
      | none => simp [runActs, hs] at h
      | some c2 =>
        simp only [runActs, hs] at h
        exact readerOK_run acts c2 c1 (readerOK_move hall (cstep_move hs)) h

/-- C15. In every run of the system (calls on the registry, steps of the scheduler and of
readers in any order) and for every session `p`: since its latest call of
`ReadMultiBuffer` the log of `p` is empty while it has no permission, holds exactly the
event that gave the permission (its completed send or its received token) when it is
about to read, and holds that event, one underlying read of a stream `r` with the result
`rd r` and the return of that very result once the call has returned.  In every step
that logs a completed send of `p` the scheduler was parked on the request channel and is
woken; a step that logs a received token is an offer of the scan to `p`, parked on its
own token channel; a step that logs a read is a step of `p` holding a permission, the
stream read is the one in `s.input`, the result logged is what that read returns and is
returned in the same step.  A call that holds a permission on a session with an input
does make that step: it calls the read of `s.input` once and returns its result.  A call
that has returned makes no further step, so the read is not tried again. -/
theorem read_only_with_permission (fails : Nat → Bool) (rd : Nat → Nat) (w : World)
    (acts : List Act) (c : Conc)
    (h : runActs fails rd (startConc w) acts = .ok (some c)) :
    (∀ p, ReaderOK rd c p) ∧
    (∀ act c1, cstep fails rd c act = .ok (some c1) →
      ∃ evs, c1.log = c.log ++ evs ∧
        (∀ p, CEvent.sendDone p ∈ evs →
          act = Act.reader p ∧ c.sched = SchedPc.idle ∧ c1.sched = SchedPc.top) ∧
        (∀ p, CEvent.tokenRecv p ∈ evs →
          act = Act.sched ∧ ∃ rest hit s, c.sched = SchedPc.scan (p :: rest) hit ∧
            c.w.heap[p]? = some s ∧ c.readers p = ReadPc.waitToken s.tokenChan) ∧
        (∀ p r res, CEvent.read p r res ∈ evs →
          act = Act.reader p ∧ (∃ g, c.readers p = ReadPc.granted g) ∧
          (∃ s, c.w.heap[p]? = some s ∧ s.input = some r) ∧ res = rd r ∧
          evs = [CEvent.read p r (rd r), CEvent.ret p (rd r)] ∧
          c1.readers p = ReadPc.returned (rd r))) ∧
    (∀ p g s r, c.readers p = ReadPc.granted g → c.w.heap[p]? = some s →
      s.input = some r →
      cstep fails rd c (Act.reader p) = .ok (some
        { c with
          readers := setReader c.readers p (ReadPc.returned (rd r))
          log := c.log ++ [CEvent.read p r (rd r), CEvent.ret p (rd r)] })) ∧
    (∀ p res, c.readers p = ReadPc.returned res →
      cstep fails rd c (Act.reader p) = .ok none) := by
  refine ⟨?_, ?_, ?_, ?_⟩
  · apply readerOK_run acts (startConc w) c _ h
    intro p
    simp [ReaderOK, startConc]
  · intro act c1 hs
    cases cstep_move hs with
    | quiet hr hl => exact ⟨[], by simp [hl], by simp, by simp, by simp⟩
    | called q ha hpc hr hl => exact ⟨_, hl, by simp, by simp, by simp⟩
    | sent q ha hpc hsc hs1 hr hl =>
      refine ⟨_, hl, ?_, by simp, by simp⟩
      intro p hp
      simp only [List.mem_singleton, CEvent.sendDone.injEq] at hp
      subst hp
      exact ⟨ha, hsc, hs1⟩
    | missed q ha hpc hr hl => exact ⟨[], by simp [hl], by simp, by simp, by simp⟩
    | parked q ch ha hpc hr hl => exact ⟨[], by simp [hl], by simp, by simp, by simp⟩
    | tokened q rest hit s ha hsc hh hpc hr hl =>
      refine ⟨_, hl, by simp, ?_, by simp⟩
      intro p hp
      simp only [List.mem_singleton, CEvent.tokenRecv.injEq] at hp
      subst hp
      exact ⟨ha, rest, hit, s, hsc, hh, hpc⟩
    | readDone q g s r0 ha hpc hh hin hr hl =>
      refine ⟨_, hl, by simp, by simp, ?_⟩
      intro p r res hp
      have heq : CEvent.read p r res = CEvent.read q r0 (rd r0) := by
        rcases List.mem_cons.mp hp with h1 | h1
        · exact h1
        · simp at h1
      simp only [CEvent.read.injEq] at heq
      obtain ⟨hpq, hrr, hres⟩ := heq
      subst hpq
      subst hrr
      refine ⟨ha, ⟨g, hpc⟩, ⟨s, hh, hin⟩, hres, rfl, ?_⟩
      rw [hr]
      simp [setReader]
  · intro p g s r hpc hh hin
    simp [cstep, Session.ReadMultiBuffer, hpc, hh, hin]
  · intro p res hpc
    simp [cstep, Session.ReadMultiBuffer, hpc]

theorem read_only_with_permission_witness :
    runActs (fun _ => false) (fun r => r + 100) (startConc oneSession) twoReads =
      .ok (some twoReadsEnd) ∧
    twoReadsEnd.readers 0 = ReadPc.returned 110 ∧
    twoReadsEnd.log =
      [CEvent.call 0, CEvent.sendDone 0, CEvent.read 0 10 110, CEvent.ret 0 110,
       CEvent.call 0, CEvent.tokenRecv 0, CEvent.read 0 10 110, CEvent.ret 0 110] ∧
    ((∀ p, ReaderOK (fun r => r + 100) twoReadsEnd p) ∧
     (∀ act c1, cstep (fun _ => false) (fun r => r + 100) twoReadsEnd act = .ok (some c1) →
      ∃ evs, c1.log = twoReadsEnd.log ++ evs ∧
        (∀ p, CEvent.sendDone p ∈ evs →
          act = Act.reader p ∧ twoReadsEnd.sched = SchedPc.idle ∧ c1.sched = SchedPc.top) ∧
        (∀ p, CEvent.tokenRecv p ∈ evs →
          act = Act.sched ∧ ∃ rest hit s, twoReadsEnd.sched = SchedPc.scan (p :: rest) hit ∧
            twoReadsEnd.w.heap[p]? = some s ∧
            twoReadsEnd.readers p = ReadPc.waitToken s.tokenChan) ∧
        (∀ p r res, CEvent.read p r res ∈ evs →
          act = Act.reader p ∧ (∃ g, twoReadsEnd.readers p = ReadPc.granted g) ∧
          (∃ s, twoReadsEnd.w.heap[p]? = some s ∧ s.input = some r) ∧ res = r + 100 ∧
          evs = [CEvent.read p r (r + 100), CEvent.ret p (r + 100)] ∧
          c1.readers p = ReadPc.returned (r + 100))) ∧
     (∀ p g s r, twoReadsEnd.readers p = ReadPc.granted g → twoReadsEnd.w.heap[p]? = some s →
      s.input = some r →
      cstep (fun _ => false) (fun r => r + 100) twoReadsEnd (Act.reader p) = .ok (some
        { twoReadsEnd with
          readers := setReader twoReadsEnd.readers p (ReadPc.returned (r + 100))
          log := twoReadsEnd.log ++ [CEvent.read p r (r + 100), CEvent.ret p (r + 100)] })) ∧
     (∀ p res, twoReadsEnd.readers p = ReadPc.returned res →
      cstep (fun _ => false) (fun r => r + 100) twoReadsEnd (Act.reader p) = .ok none)) :=
  ⟨rfl, rfl, rfl,
    read_only_with_permission (fun _ => false) (fun r => r + 100) oneSession twoReads
      twoReadsEnd rfl⟩

/-- C13. On a closed registry every call (`Allocate`, `Add`, `Remove`, `Get`, `Size`,
`Count`, `CloseIfNoSession`, `Close`, and `Session.Close` with the `Remove` it issues)
that returns leaves `Closed()` true and the mapping and the counter as they were. -/
theorem closed_registry_frozen (fails : Nat → Bool) (w w1 : World) (op : Op)
    (hc : SessionManager.Closed w = true) (h : step fails w op = .ok w1) :
    SessionManager.Closed w1 = true ∧ w1.mgr.sessions = w.mgr.sessions ∧
    SessionManager.Count w1 = SessionManager.Count w := by
  have hm := step_closed_mgr hc h
  refine ⟨?_, ?_, ?_⟩
  · show w1.mgr.closed = true
    rw [hm]
    exact hc
  · rw [hm]
  · show w1.mgr.count = w.mgr.count
    rw [hm]

theorem closed_registry_frozen_witness :
    SessionManager.Closed (oneSessionClosed false) = true ∧
    step (fun _ => false) (oneSessionClosed false) (Op.sessionClose 0) = .ok oneSessionLate ∧
    (SessionManager.Closed oneSessionLate = true ∧
     oneSessionLate.mgr.sessions = (oneSessionClosed false).mgr.sessions ∧
     SessionManager.Count oneSessionLate = SessionManager.Count (oneSessionClosed false)) :=
  ⟨rfl, rfl,
    closed_registry_frozen (fun _ => false) (oneSessionClosed false) oneSessionLate
      (Op.sessionClose 0) rfl rfl⟩

/-- C19. In every state a registry can reach, `Closed()` true implies `Size()` is 0. -/
theorem closed_registry_empty (fails : Nat → Bool) (self : Nat) (w : World)
    (hr : Reachable fails self w) (hc : SessionManager.Closed w = true) :
    SessionManager.Size w = 0 :=
  (reachable_inv hr).closedEmpty hc

theorem closed_registry_empty_witness :
    Reachable (fun _ => false) 0 (oneSessionClosed false) ∧
    SessionManager.Closed (oneSessionClosed false) = true ∧
    SessionManager.Size (oneSessionClosed false) = 0 :=
  ⟨⟨oneSessionOps ++ [Op.close], rfl⟩, rfl,
    closed_registry_empty (fun _ => false) 0 (oneSessionClosed false)
      ⟨oneSessionOps ++ [Op.close], rfl⟩ rfl⟩

end Mux
